import Mathlib

/-!
# Infrared: MSP430G2553 IR receiver and binary LED counter

Shallow embedding of `IR_Receiver/main.c` and `Binary_Output/main.c`.

Machine model (MSP430, TI compiler): `unsigned char` and the port registers are
8 bits wide, `int`, `unsigned int` and the Timer_A registers are 16 bits wide.
Every write is reduced modulo the width of its destination; `validBytes++` on the
`int` counter wraps in two's complement.  The interrupt service routines run to
completion, so each one is a function on the machine state.  The timer count is the
field `TA0R`: the environment sets it when an edge arrives and `TA0CTL |= TACLR`
zeroes it.  The argument of every `showByte` call is appended to the ghost field
`shown`, which is how "a byte is emitted" is observed.
-/

namespace Infrared

/-! ## Constants of the device header `msp430g2553.h` -/

def BIT0 : Nat := 0x01
def BIT1 : Nat := 0x02
def BIT2 : Nat := 0x04
def BIT3 : Nat := 0x08
def BIT4 : Nat := 0x10
def BIT5 : Nat := 0x20
def BIT6 : Nat := 0x40
def BIT7 : Nat := 0x80
/-- Timer_A clear: writing this bit to TA0CTL zeroes TA0R; the bit reads back as 0. -/
def TACLR : Nat := 0x0004
/-- Timer_A mode control 1: up mode, count to TA0CCR0. -/
def MC_1 : Nat := 0x0010
/-- Timer_A input divider /8. -/
def ID_3 : Nat := 0x00C0
/-- Timer_A clock source SMCLK. -/
def TASSEL_2 : Nat := 0x0200
/-- Capture/compare interrupt enable. -/
def CCIE : Nat := 0x0010

/-! ## Machine arithmetic -/

/-- Bitwise complement of an `int`-typed operand (16 bits). -/
def bnot16 (m : Nat) : Nat := 0xFFFF ^^^ m

/-- Register update `r |= m` on an 8-bit register. -/
def bis8 (r m : Nat) : Nat := (r ||| m) % 256

/-- Register update `r &= ~m` on an 8-bit register. -/
def bic8 (r m : Nat) : Nat := (r &&& bnot16 m) % 256

/-- Register update `r ^= m` on an 8-bit register. -/
def xor8 (r m : Nat) : Nat := (r ^^^ m) % 256

/-- Register update `r |= m` on a 16-bit register. -/
def bis16 (r m : Nat) : Nat := (r ||| m) % 65536

/-- Register update `r &= ~m` on a 16-bit register. -/
def bic16 (r m : Nat) : Nat := (r &&& bnot16 m) % 65536

/-- Two's-complement reduction of an integer to the 16-bit `int` range. -/
def wrapInt16 (n : Int) : Int := (n + 32768) % 65536 - 32768

/-! ## Bytes as lists of bits -/

/-- The bits of a byte, least significant first. -/
def bitsLSB (b : Nat) : List Bool := (List.range 8).map (fun i => b.testBit i)

/-- Value read back from a list of line levels, least significant first. -/
def assembleLSB (ls : List Bool) : Nat :=
  ls.foldr (fun l acc => l.toNat + 2 * acc) 0

/-! ## IR receiver (`IR_Receiver/main.c`) -/

namespace IR_Receiver

/-! The timing macros expand without parentheses (`#define T0min 400*2`); each use
is the right operand of a comparison with `pulseTime`, so the product is formed
first and the macro stands for its value. -/

def T0min : Nat := 400*2
def T0max : Nat := 750*2
def T1min : Nat := 850*2
def T1max : Nat := 1100*2
def Tsmin : Nat := 300*2
def Tsmax : Nat := 1100*2
def TMAX : Nat := 30000

def IR_DETECTOR_PIN : Nat := BIT7
def oscopePin : Nat := BIT6
def LEDpinMap : List Nat := [BIT4, BIT5, BIT0, BIT1, BIT2, BIT3, BIT4, BIT5]

/-- Globals of the program, the peripheral registers it touches, and the ghost
log `shown` of the arguments passed to `showByte`. -/
structure State where
  rxData : Nat
  bitCounter : Nat
  pulseTime : Nat
  validBytes : Int
  P1OUT : Nat
  P2OUT : Nat
  P1DIR : Nat
  P2DIR : Nat
  P1IE : Nat
  P1IES : Nat
  P1IFG : Nat
  TA0CTL : Nat
  TA0CCTL0 : Nat
  TA0CCR0 : Nat
  TA0R : Nat
  shown : List Nat

/-- The function `reset()`. -/
def reset (s : State) : State :=
  let s := { s with TA0CCTL0 := bic16 s.TA0CCTL0 CCIE }
  let s := { s with P1IES := bis8 s.P1IES IR_DETECTOR_PIN }
  let s := { s with rxData := 0 }
  { s with bitCounter := 0 }

/-- Body of the `for` loop of `showByte` at index `i`, without the final shift of `x`. -/
def showByteBody (i x : Nat) (s : State) : State :=
  if i < 2 then
    if x &&& 0x01 ≠ 0 then { s with P1OUT := bis8 s.P1OUT (LEDpinMap.getD i 0) }
    else { s with P1OUT := bic8 s.P1OUT (LEDpinMap.getD i 0) }
  else
    if x &&& 0x01 ≠ 0 then { s with P2OUT := bis8 s.P2OUT (LEDpinMap.getD i 0) }
    else { s with P2OUT := bic8 s.P2OUT (LEDpinMap.getD i 0) }

/-- The loop `for (i = ..; i < 8; i++) { ...; x = x >> 1; }` of `showByte`; `fuel`
bounds the number of iterations still allowed. -/
def showByteLoop : Nat → Nat → Nat → State → State
  | 0, _, _, s => s
  | fuel + 1, i, x, s =>
    if i < 8 then showByteLoop fuel (i + 1) ((x >>> 1) % 256) (showByteBody i x s)
    else s

/-- The function `showByte(unsigned char x)`: the argument is converted to 8 bits,
logged, and the loop runs from `i = 0`. -/
def showByte (x : Nat) (s : State) : State :=
  showByteLoop 8 0 (x % 256) { s with shown := s.shown ++ [x % 256] }

/-- The statements `TA0CTL |= TACLR; TA0CTL |= MC_1;`: the counter is zeroed and
up mode is selected. -/
def restartTimer (s : State) : State :=
  let s := { s with TA0R := 0 }
  { s with TA0CTL := bis16 s.TA0CTL MC_1 }

/-- The interrupt service routine `Port_1`.  The `switch (bitCounter)` with
`case 10`, `case 1` and `default` is written as a chain of conditionals. -/
def Port_1 (s : State) : State :=
  if s.P1IFG &&& IR_DETECTOR_PIN ≠ 0 then
    let s := { s with P1IE := bic8 s.P1IE IR_DETECTOR_PIN }
    let s :=
      if s.bitCounter = 0 then
        let s := { s with P1OUT := xor8 s.P1OUT oscopePin }
        let s := { s with P1IES := bic8 s.P1IES IR_DETECTOR_PIN }
        let s := { s with bitCounter := (s.bitCounter + 1) % 65536 }
        let s := restartTimer s
        { s with TA0CCTL0 := CCIE }
      else
        let s := { s with pulseTime := s.TA0R }
        if s.bitCounter = 10 then
          let s := showByte s.rxData s
          let s := { s with validBytes := wrapInt16 (s.validBytes + 1) }
          reset s
        else if s.bitCounter = 1 then
          if s.pulseTime < Tsmin ∨ s.pulseTime > Tsmax then
            reset s
          else
            let s := restartTimer s
            let s := { s with P1OUT := xor8 s.P1OUT oscopePin }
            { s with bitCounter := (s.bitCounter + 1) % 65536 }
        else
          let s := { s with rxData := (s.rxData >>> 1) % 256 }
          let s := { s with P1OUT := xor8 s.P1OUT oscopePin }
          if s.pulseTime > T1min ∧ s.pulseTime < T1max then
            let s := { s with rxData := (s.rxData ||| 0x080) % 256 }
            let s := restartTimer s
            { s with bitCounter := (s.bitCounter + 1) % 65536 }
          else if s.pulseTime < T0min then
            reset s
          else
            let s := restartTimer s
            { s with bitCounter := (s.bitCounter + 1) % 65536 }
    let s := { s with P1IFG := bic8 s.P1IFG IR_DETECTOR_PIN }
    { s with P1IE := bis8 s.P1IE IR_DETECTOR_PIN }
  else s

/-- The interrupt service routine `Timer_A` (timer compare match, i.e. timeout). -/
def Timer_A (s : State) : State :=
  let s := { s with P1IE := bic8 s.P1IE IR_DETECTOR_PIN }
  let s := reset s
  let s := { s with P1IFG := bic8 s.P1IFG IR_DETECTOR_PIN }
  { s with P1IE := bis8 s.P1IE IR_DETECTOR_PIN }

/-- One iteration of the `while(1)` loop of `main`. -/
def mainLoop (s : State) : State :=
  if s.rxData = 255 then
    let s := showByte (255 - (s.validBytes % 256).toNat) s
    let s := { s with validBytes := 0 }
    reset s
  else s

/-- The function `initTimer()`. -/
def initTimer (s : State) : State :=
  let s := { s with TA0CCR0 := TMAX }
  let s := { s with TA0CTL := TASSEL_2 }
  let s := { s with TA0CTL := bis16 s.TA0CTL ID_3 }
  { s with TA0CTL := bis16 s.TA0CTL MC_1 }

/-- The loop of `initIO()` that configures the LED pins. -/
def initIOLoop : Nat → Nat → State → State
  | 0, _, s => s
  | fuel + 1, i, s =>
    if i < 8 then
      if i < 2 then
        let s := { s with P1DIR := bis8 s.P1DIR (LEDpinMap.getD i 0) }
        initIOLoop fuel (i + 1) { s with P1OUT := bic8 s.P1OUT (LEDpinMap.getD i 0) }
      else
        let s := { s with P2DIR := bis8 s.P2DIR (LEDpinMap.getD i 0) }
        initIOLoop fuel (i + 1) { s with P2OUT := bic8 s.P2OUT (LEDpinMap.getD i 0) }
    else s

/-- The function `initIO()`. -/
def initIO (s : State) : State :=
  let s := { s with P1IE := bis8 s.P1IE IR_DETECTOR_PIN }
  let s := { s with P1IES := bis8 s.P1IES IR_DETECTOR_PIN }
  let s := { s with P1IFG := bic8 s.P1IFG IR_DETECTOR_PIN }
  let s := { s with P1DIR := bis8 s.P1DIR oscopePin }
  let s := { s with P1OUT := bic8 s.P1OUT oscopePin }
  initIOLoop 8 0 s

/-- Machine state at entry to `main`: the globals carry their initialisers and
every modelled register reads 0. -/
def resetState : State :=
  { rxData := 0, bitCounter := 0, pulseTime := 0, validBytes := 0,
    P1OUT := 0, P2OUT := 0, P1DIR := 0, P2DIR := 0, P1IE := 0, P1IES := 0, P1IFG := 0,
    TA0CTL := 0, TA0CCTL0 := 0, TA0CCR0 := 0, TA0R := 0, shown := [] }

/-- State when `main` reaches its `while(1)` loop (`initClock` touches only the
clock registers, which are not modelled). -/
def powerOn : State := initIO (initTimer resetState)

/-! ### Environment: notifications delivered to the program -/

/-- An edge on the detector pin when the timer count stands at `e`: the hardware
latches the count, raises the pin's interrupt flag, and `Port_1` runs. -/
def edge (e : Nat) (s : State) : State :=
  Port_1 { s with TA0R := e % 65536, P1IFG := bis8 s.P1IFG IR_DETECTOR_PIN }

/-- A sequence of edges handled back to back, given by their elapsed times. -/
def edges (es : List Nat) (s : State) : State :=
  es.foldl (fun st e => edge e st) s

/-- A sequence of edges with one iteration of the main loop after each of them. -/
def edgesPolled (es : List Nat) (s : State) : State :=
  es.foldl (fun st e => mainLoop (edge e st)) s

/-- A notification delivered to the program, or one pass of the main loop: an edge
on the detector pin with the timer count at `e`, a timer compare match (timeout), or
one iteration of `while(1)` in `main`. -/
inductive Event where
  | edge (e : Nat)
  | timeout
  | poll

/-- Effect of one event: the handler it triggers runs to completion. -/
def step (ev : Event) (s : State) : State :=
  match ev with
  | Event.edge e => edge e s
  | Event.timeout => Timer_A s
  | Event.poll => mainLoop s

/-- State reached from `s` by a sequence of events. -/
def run (evs : List Event) (s : State) : State :=
  evs.foldl (fun st ev => step ev st) s

/-! ### Statement-level view of the handlers

Each C statement of `Port_1`, `Timer_A` and `reset` is a state transformer, and a
handler is the list of the statements it executes, in program order, for a given
entry state.  The branch taken is decided from the entry state: `bitCounter` is not
written before the `switch`, and `pulseTime` holds the entry value of `TA0R` when it
is compared. -/

/-- A single statement, as its effect on the machine state. -/
abbrev Stmt := State → State

/-- Run statements in order. -/
def exec (ps : List Stmt) (s : State) : State :=
  ps.foldl (fun st p => p st) s

/-- The statement `P1IE &= ~IR_DETECTOR_PIN;`. -/
def disableEdge : Stmt := fun s => { s with P1IE := bic8 s.P1IE IR_DETECTOR_PIN }

/-- The statement `P1IFG &= ~IR_DETECTOR_PIN;`. -/
def clearFlag : Stmt := fun s => { s with P1IFG := bic8 s.P1IFG IR_DETECTOR_PIN }

/-- The statement `P1IE |= IR_DETECTOR_PIN;`. -/
def enableEdge : Stmt := fun s => { s with P1IE := bis8 s.P1IE IR_DETECTOR_PIN }

/-- The statement `P1OUT ^= oscopePin;`. -/
def toggleScope : Stmt := fun s => { s with P1OUT := xor8 s.P1OUT oscopePin }

/-- The statement `TA0CTL |= TACLR;`. -/
def clearTimer : Stmt := fun s => { s with TA0R := 0 }

/-- The statement `TA0CTL |= MC_1;`. -/
def upMode : Stmt := fun s => { s with TA0CTL := bis16 s.TA0CTL MC_1 }

/-- The statement `bitCounter++;`. -/
def incBitCounter : Stmt := fun s => { s with bitCounter := (s.bitCounter + 1) % 65536 }

/-- The four statements of `reset()`. -/
def resetStmts : List Stmt :=
  [fun s => { s with TA0CCTL0 := bic16 s.TA0CCTL0 CCIE },
   fun s => { s with P1IES := bis8 s.P1IES IR_DETECTOR_PIN },
   fun s => { s with rxData := 0 },
   fun s => { s with bitCounter := 0 }]

/-- The statements `Port_1` executes between disabling the pin interrupt and clearing
the flag, for the entry state `s`. -/
def Port_1_body (s : State) : List Stmt :=
  if s.bitCounter = 0 then
    [toggleScope,
     fun t => { t with P1IES := bic8 t.P1IES IR_DETECTOR_PIN },
     incBitCounter, clearTimer, upMode,
     fun t => { t with TA0CCTL0 := CCIE }]
  else
    (fun t => { t with pulseTime := t.TA0R }) ::
    (if s.bitCounter = 10 then
      [fun t => showByte t.rxData t,
       fun t => { t with validBytes := wrapInt16 (t.validBytes + 1) }] ++ resetStmts
    else if s.bitCounter = 1 then
      if s.TA0R < Tsmin ∨ s.TA0R > Tsmax then resetStmts
      else [clearTimer, upMode, toggleScope, incBitCounter]
    else
      [fun t => { t with rxData := (t.rxData >>> 1) % 256 }, toggleScope] ++
      (if s.TA0R > T1min ∧ s.TA0R < T1max then
        [fun t => { t with rxData := (t.rxData ||| 0x080) % 256 },
         clearTimer, upMode, incBitCounter]
      else if s.TA0R < T0min then resetStmts
      else [clearTimer, upMode, incBitCounter]))

/-- The statements executed by `Port_1` for the entry state `s`, in program order. -/
def Port_1_stmts (s : State) : List Stmt :=
  if s.P1IFG &&& IR_DETECTOR_PIN ≠ 0 then
    disableEdge :: (Port_1_body s ++ [clearFlag, enableEdge])
  else []

/-- The statements executed by `Timer_A`, in program order. -/
def Timer_A_stmts : List Stmt :=
  disableEdge :: (resetStmts ++ [clearFlag, enableEdge])

/-- The pin interrupt of the detector is masked (its enable bit is clear). -/
def EdgeMasked (s : State) : Prop := s.P1IE &&& IR_DETECTOR_PIN = 0

/-! ### Vocabulary of the specification -/

/-- The decoder is idle: `bitCounter = 0` and the accumulator is empty. -/
def Idle (s : State) : Prop := s.bitCounter = 0 ∧ s.rxData = 0

/-- Falling-edge detection is selected for the detector pin. -/
def FallingEdgeSelected (s : State) : Prop := s.P1IES &&& IR_DETECTOR_PIN ≠ 0

/-- The timer compare (timeout) interrupt is enabled. -/
def TimeoutEnabled (s : State) : Prop := s.TA0CCTL0 &&& CCIE ≠ 0

/-- The elapsed time `t` is a valid start pulse: `600 ≤ t ≤ 2200`. -/
def StartPulse (t : Nat) : Prop := 600 ≤ t ∧ t ≤ 2200

/-- The elapsed time `t` (a 16-bit tick count) encodes the data bit `bit`:
bit 1 is `1700 < t < 2200`; bit 0 is `t ≥ 800` and not `1700 < t < 2200`. -/
def EncodesBit (bit : Bool) (t : Nat) : Prop :=
  t < 65536 ∧ if bit then 1700 < t ∧ t < 2200 else 800 ≤ t ∧ ¬ (1700 < t ∧ t < 2200)

/-- The elapsed times `ds` encode the eight bits of `b`, least significant first. -/
def EncodesByte (b : Nat) (ds : List Nat) : Prop :=
  List.Forall₂ EncodesBit (bitsLSB b) ds

instance (t : Nat) : Decidable (StartPulse t) :=
  inferInstanceAs (Decidable (600 ≤ t ∧ t ≤ 2200))

instance (bit : Bool) (t : Nat) : Decidable (EncodesBit bit t) :=
  inferInstanceAs (Decidable (t < 65536 ∧
    if bit then 1700 < t ∧ t < 2200 else 800 ≤ t ∧ ¬ (1700 < t ∧ t < 2200)))

instance (b : Nat) (ds : List Nat) : Decidable (EncodesByte b ds) :=
  inferInstanceAs (Decidable (List.Forall₂ EncodesBit (bitsLSB b) ds))

/-- The eleven edges of one frame, by elapsed time: first edge, start edge, eight
data edges, stop edge. -/
def frame (t0 ts : Nat) (ds : List Nat) (tstop : Nat) : List Nat :=
  t0 :: ts :: (ds ++ [tstop])

/-- The list `f` of elapsed times is a valid frame for the byte `b`. -/
def IsFrameOf (b : Nat) (f : List Nat) : Prop :=
  ∃ t0 ts ds tstop, f = frame t0 ts ds tstop ∧ StartPulse ts ∧ EncodesByte b ds

/-- Frame with the nominal timing of the header comment at 0.5 µs per tick, measured
between rising edges: start edge after 936 µs, a 0 bit after 312 + 312 µs, a 1 bit
after 312 + 624 µs, stop edge after 312 + 936 µs. -/
def nominalFrame (b : Nat) : List Nat :=
  frame 0 1872 ((bitsLSB b).map (fun bit => if bit then 1872 else 1248)) 2496

/-- Accumulator after a data edge: shifted right, with bit 7 set for a ONE. -/
def shiftIn (rx : Nat) (bit : Bool) : Nat :=
  if bit then ((rx >>> 1) % 256 ||| 0x080) % 256 else (rx >>> 1) % 256

/-- Levels of the eight LED lines in `LEDpinMap` order:
P1.4, P1.5, P2.0, P2.1, P2.2, P2.3, P2.4, P2.5. -/
def ledLines (s : State) : List Bool :=
  [s.P1OUT.testBit 4, s.P1OUT.testBit 5, s.P2OUT.testBit 0, s.P2OUT.testBit 1,
   s.P2OUT.testBit 2, s.P2OUT.testBit 3, s.P2OUT.testBit 4, s.P2OUT.testBit 5]

/-- Levels of the port lines that carry no LED: P1.0, P1.1, P1.2, P1.3, P1.6 (the
oscilloscope pin), P1.7, P2.6, P2.7. -/
def otherLines (s : State) : List Bool :=
  [s.P1OUT.testBit 0, s.P1OUT.testBit 1, s.P1OUT.testBit 2, s.P1OUT.testBit 3,
   s.P1OUT.testBit 6, s.P1OUT.testBit 7, s.P2OUT.testBit 6, s.P2OUT.testBit 7]

end IR_Receiver

/-! ## Binary counter (`Binary_Output/main.c`) -/

namespace Binary_Output

def COUNT : Nat := 1000
def LEDpinMap : List Nat := [BIT0, BIT1, BIT2, BIT3, BIT4, BIT5, BIT0, BIT1]

/-- Globals of the program, the port registers it touches, and the ghost log
`shown` of the arguments passed to `showByte`. -/
structure State where
  millis : Nat
  P1OUT : Nat
  P2OUT : Nat
  P1DIR : Nat
  P2DIR : Nat
  shown : List Nat

/-- Body of the `for` loop of `showByte` at index `i`, without the final shift of `x`. -/
def showByteBody (i x : Nat) (s : State) : State :=
  if i < 6 then
    if x &&& 0x01 ≠ 0 then { s with P1OUT := bis8 s.P1OUT (LEDpinMap.getD i 0) }
    else { s with P1OUT := bic8 s.P1OUT (LEDpinMap.getD i 0) }
  else
    if x &&& 0x01 ≠ 0 then { s with P2OUT := bis8 s.P2OUT (LEDpinMap.getD i 0) }
    else { s with P2OUT := bic8 s.P2OUT (LEDpinMap.getD i 0) }

/-- The loop `for (i = ..; i < 8; i++) { ...; x = x >> 1; }` of `showByte`; `fuel`
bounds the number of iterations still allowed. -/
def showByteLoop : Nat → Nat → Nat → State → State
  | 0, _, _, s => s
  | fuel + 1, i, x, s =>
    if i < 8 then showByteLoop fuel (i + 1) ((x >>> 1) % 256) (showByteBody i x s)
    else s

/-- The function `showByte(unsigned char x)`: the argument is converted to 8 bits,
logged, and the loop runs from `i = 0`. -/
def showByte (x : Nat) (s : State) : State :=
  showByteLoop 8 0 (x % 256) { s with shown := s.shown ++ [x % 256] }

/-- The interrupt service routine `Timer0_ISR`: `millis++` on an `unsigned long`. -/
def Timer0_ISR (s : State) : State :=
  { s with millis := (s.millis + 1) % 4294967296 }

/-- The busy wait `while (millis < endMillis) {}`.  `millis` only changes through the
timer interrupt, so each pass of the model takes one interrupt; `fuel` bounds the
number of passes. -/
def waitLoop : Nat → Nat → State → State
  | 0, _, s => s
  | fuel + 1, endMillis, s =>
    if s.millis < endMillis then waitLoop fuel endMillis (Timer0_ISR s) else s

/-- The software delay of `main`: `startMillis = millis; endMillis = startMillis + 50;`
followed by the busy wait (51 passes are enough, see `delay_done`). -/
def delay (s : State) : State :=
  let startMillis := s.millis
  let endMillis := (startMillis + 50) % 4294967296
  waitLoop 51 endMillis s

/-- The loop `for (i = 0; i < 256; i++) { showByte(i); delay }` of `main` with
`unsigned char i`: the state after `n` passes started with counter `i`, or `none` if
the test `i < 256` fails before that, i.e. the loop exits.  The increment wraps at 8
bits. -/
def innerLoop : Nat → Nat → State → Option (Nat × State)
  | 0, i, s => some (i, s)
  | n + 1, i, s =>
    if i < 256 then innerLoop n ((i + 1) % 256) (delay (showByte i s)) else none

/-- Levels of the eight LED lines in `LEDpinMap` order:
P1.0, P1.1, P1.2, P1.3, P1.4, P1.5, P2.0, P2.1. -/
def ledLines (s : State) : List Bool :=
  [s.P1OUT.testBit 0, s.P1OUT.testBit 1, s.P1OUT.testBit 2, s.P1OUT.testBit 3,
   s.P1OUT.testBit 4, s.P1OUT.testBit 5, s.P2OUT.testBit 0, s.P2OUT.testBit 1]

/-- Levels of the port lines that carry no LED: P1.6, P1.7, P2.2, P2.3, P2.4, P2.5,
P2.6, P2.7. -/
def otherLines (s : State) : List Bool :=
  [s.P1OUT.testBit 6, s.P1OUT.testBit 7, s.P2OUT.testBit 2, s.P2OUT.testBit 3,
   s.P2OUT.testBit 4, s.P2OUT.testBit 5, s.P2OUT.testBit 6, s.P2OUT.testBit 7]

end Binary_Output

end Infrared

/-! # Theorems -/

namespace Infrared

/-! ## Bit-level facts -/

theorem wrapInt16_id (n : Int) (h0 : -32768 ≤ n) (h1 : n ≤ 32767) : wrapInt16 n = n := by
  unfold wrapInt16
  omega

theorem testBit_mod256 (r j : Nat) : (r % 256).testBit j = (decide (j < 8) && r.testBit j) :=
  Nat.testBit_mod_two_pow r 8 j

theorem testBit_shift_byte (x m : Nat) (hm : m < 8) :
    ((x >>> 1) % 256).testBit m = x.testBit (m + 1) := by
  rw [testBit_mod256, Nat.testBit_shiftRight, Nat.add_comm]
  simp [hm]

theorem bitsLSB_length (b : Nat) : (bitsLSB b).length = 8 := by
  simp [bitsLSB]

theorem bitsLSB_eq (x : Nat) : bitsLSB x = [x.testBit 0, x.testBit 1, x.testBit 2,
    x.testBit 3, x.testBit 4, x.testBit 5, x.testBit 6, x.testBit 7] := by
  simp [bitsLSB, List.range, List.range.loop]

set_option maxRecDepth 100000 in
theorem assembleLSB_bits : ∀ x, x < 256 → assembleLSB (bitsLSB x) = x := by
  decide

namespace IR_Receiver

/-! ## IR receiver: single steps -/
theorem flag_pending (x : Nat) : bis8 x IR_DETECTOR_PIN &&& IR_DETECTOR_PIN ≠ 0 := by
  have h : (bis8 x IR_DETECTOR_PIN &&& IR_DETECTOR_PIN).testBit 7 = true := by
    show (((x ||| 2 ^ 7) % 2 ^ 8) &&& 2 ^ 7).testBit 7 = true
    rw [Nat.testBit_land, Nat.testBit_mod_two_pow, Nat.testBit_lor, Nat.testBit_two_pow]
    simp
  intro h0
  rw [h0] at h
  simp at h

theorem showByteBody_ports (i x : Nat) (s : State) :
    ∃ p1 p2, showByteBody i x s = { s with P1OUT := p1, P2OUT := p2 } := by
  unfold showByteBody
  split_ifs
  · exact ⟨_, s.P2OUT, rfl⟩
  · exact ⟨_, s.P2OUT, rfl⟩
  · exact ⟨s.P1OUT, _, rfl⟩
  · exact ⟨s.P1OUT, _, rfl⟩

theorem showByteLoop_ports (fuel : Nat) : ∀ (i x : Nat) (s : State),
    ∃ p1 p2, showByteLoop fuel i x s = { s with P1OUT := p1, P2OUT := p2 } := by
  induction fuel with
  | zero => intro i x s; exact ⟨s.P1OUT, s.P2OUT, rfl⟩
  | succ n ih =>
    intro i x s
    unfold showByteLoop
    split_ifs
    · obtain ⟨q1, q2, hq⟩ := showByteBody_ports i x s
      obtain ⟨p1, p2, hp⟩ := ih (i + 1) ((x >>> 1) % 256) (showByteBody i x s)
      exact ⟨p1, p2, by rw [hp, hq]⟩
    · exact ⟨s.P1OUT, s.P2OUT, rfl⟩

theorem showByte_ports (x : Nat) (s : State) :
    ∃ p1 p2, showByte x s = { s with shown := s.shown ++ [x % 256], P1OUT := p1, P2OUT := p2 } := by
  obtain ⟨p1, p2, hp⟩ := showByteLoop_ports 8 0 (x % 256) { s with shown := s.shown ++ [x % 256] }
  exact ⟨p1, p2, by rw [showByte, hp]⟩

@[simp]
theorem showByte_rxData (x : Nat) (s : State) : (showByte x s).rxData = s.rxData := by
  obtain ⟨p1, p2, hp⟩ := showByte_ports x s
  rw [hp]

@[simp]
theorem showByte_bitCounter (x : Nat) (s : State) : (showByte x s).bitCounter = s.bitCounter := by
  obtain ⟨p1, p2, hp⟩ := showByte_ports x s
  rw [hp]

@[simp]
theorem showByte_pulseTime (x : Nat) (s : State) : (showByte x s).pulseTime = s.pulseTime := by
  obtain ⟨p1, p2, hp⟩ := showByte_ports x s
  rw [hp]

@[simp]
theorem showByte_validBytes (x : Nat) (s : State) : (showByte x s).validBytes = s.validBytes := by
  obtain ⟨p1, p2, hp⟩ := showByte_ports x s
  rw [hp]

@[simp]
theorem showByte_P1DIR (x : Nat) (s : State) : (showByte x s).P1DIR = s.P1DIR := by
  obtain ⟨p1, p2, hp⟩ := showByte_ports x s
  rw [hp]

@[simp]
theorem showByte_P2DIR (x : Nat) (s : State) : (showByte x s).P2DIR = s.P2DIR := by
  obtain ⟨p1, p2, hp⟩ := showByte_ports x s
  rw [hp]

@[simp]
theorem showByte_P1IE (x : Nat) (s : State) : (showByte x s).P1IE = s.P1IE := by
  obtain ⟨p1, p2, hp⟩ := showByte_ports x s
  rw [hp]

@[simp]
theorem showByte_P1IES (x : Nat) (s : State) : (showByte x s).P1IES = s.P1IES := by
  obtain ⟨p1, p2, hp⟩ := showByte_ports x s
  rw [hp]

@[simp]
theorem showByte_P1IFG (x : Nat) (s : State) : (showByte x s).P1IFG = s.P1IFG := by
  obtain ⟨p1, p2, hp⟩ := showByte_ports x s
  rw [hp]

@[simp]
theorem showByte_TA0CTL (x : Nat) (s : State) : (showByte x s).TA0CTL = s.TA0CTL := by
  obtain ⟨p1, p2, hp⟩ := showByte_ports x s
  rw [hp]

@[simp]
theorem showByte_TA0CCTL0 (x : Nat) (s : State) : (showByte x s).TA0CCTL0 = s.TA0CCTL0 := by
  obtain ⟨p1, p2, hp⟩ := showByte_ports x s
  rw [hp]

@[simp]
theorem showByte_TA0CCR0 (x : Nat) (s : State) : (showByte x s).TA0CCR0 = s.TA0CCR0 := by
  obtain ⟨p1, p2, hp⟩ := showByte_ports x s
  rw [hp]

@[simp]
theorem showByte_TA0R (x : Nat) (s : State) : (showByte x s).TA0R = s.TA0R := by
  obtain ⟨p1, p2, hp⟩ := showByte_ports x s
  rw [hp]

@[simp]
theorem showByte_shown (x : Nat) (s : State) :
    (showByte x s).shown = s.shown ++ [x % 256] := by
  obtain ⟨p1, p2, hp⟩ := showByte_ports x s
  rw [hp]


theorem edge_first (e : Nat) (s : State) (h : s.bitCounter = 0) :
    (edge e s).bitCounter = 1 ∧ (edge e s).rxData = s.rxData ∧
      (edge e s).validBytes = s.validBytes ∧ (edge e s).shown = s.shown := by
  simp [edge, Port_1, flag_pending, h, restartTimer]

theorem edge_stop (e : Nat) (s : State) (h : s.bitCounter = 10) :
    (edge e s).bitCounter = 0 ∧ (edge e s).rxData = 0 ∧
      (edge e s).validBytes = wrapInt16 (s.validBytes + 1) ∧
      (edge e s).shown = s.shown ++ [s.rxData % 256] := by
  simp [edge, Port_1, flag_pending, h, reset]

theorem edge_start (e : Nat) (s : State) (h : s.bitCounter = 1) (he : e < 65536) :
    (600 ≤ e ∧ e ≤ 2200 →
      (edge e s).bitCounter = 2 ∧ (edge e s).rxData = s.rxData ∧
      (edge e s).validBytes = s.validBytes ∧ (edge e s).shown = s.shown) ∧
    (¬ (600 ≤ e ∧ e ≤ 2200) →
      (edge e s).bitCounter = 0 ∧ (edge e s).rxData = 0 ∧
      (edge e s).validBytes = s.validBytes ∧ (edge e s).shown = s.shown) := by
  have hm : e % 65536 = e := Nat.mod_eq_of_lt he
  constructor
  · intro hr
    have : ¬ (e < Tsmin ∨ e > Tsmax) := by simp [Tsmin, Tsmax]; omega
    simp [edge, Port_1, flag_pending, h, restartTimer, hm, this]
  · intro hr
    have : (e < Tsmin ∨ e > Tsmax) := by simp [Tsmin, Tsmax]; omega
    simp [edge, Port_1, flag_pending, h, reset, hm, this]

theorem edge_data (e : Nat) (s : State) (h2 : 2 ≤ s.bitCounter) (h9 : s.bitCounter ≤ 9)
    (he : e < 65536) :
    (1700 < e ∧ e < 2200 →
      (edge e s).bitCounter = s.bitCounter + 1 ∧
      (edge e s).rxData = ((s.rxData >>> 1) % 256 ||| 0x80) % 256 ∧
      (edge e s).validBytes = s.validBytes ∧ (edge e s).shown = s.shown) ∧
    (e < 800 →
      (edge e s).bitCounter = 0 ∧ (edge e s).rxData = 0 ∧
      (edge e s).validBytes = s.validBytes ∧ (edge e s).shown = s.shown) ∧
    (800 ≤ e ∧ ¬ (1700 < e ∧ e < 2200) →
      (edge e s).bitCounter = s.bitCounter + 1 ∧
      (edge e s).rxData = (s.rxData >>> 1) % 256 ∧
      (edge e s).validBytes = s.validBytes ∧ (edge e s).shown = s.shown) := by
  have hm : e % 65536 = e := Nat.mod_eq_of_lt he
  have h0 : s.bitCounter ≠ 0 := by omega
  have h1 : s.bitCounter ≠ 1 := by omega
  have h10 : s.bitCounter ≠ 10 := by omega
  have hb : (s.bitCounter + 1) % 65536 = s.bitCounter + 1 := by omega
  refine ⟨?_, ?_, ?_⟩
  · intro hr
    have : e > T1min ∧ e < T1max := by simp [T1min, T1max]; omega
    simp [edge, Port_1, flag_pending, h0, h1, h10, hb, restartTimer, hm, this]
  · intro hr
    have c1 : ¬ (e > T1min ∧ e < T1max) := by simp [T1min, T1max]; omega
    have c2 : e < T0min := by simp [T0min]; omega
    simp [edge, Port_1, flag_pending, h0, h1, h10, hb, reset, hm, c1, c2]
  · intro hr
    have c1 : ¬ (e > T1min ∧ e < T1max) := by simp [T1min, T1max]; omega
    have c2 : ¬ e < T0min := by simp [T0min]; omega
    simp [edge, Port_1, flag_pending, h0, h1, h10, hb, restartTimer, hm, c1, c2]

/-! ## IR receiver: frames -/

set_option maxRecDepth 100000 in
theorem shiftIn_bits : ∀ b, b < 256 → (bitsLSB b).foldl shiftIn 0 = b := by
  decide

set_option maxRecDepth 100000 in
theorem shiftIn_partial : ∀ b, b < 256 → ∀ k, k < 8 →
    ((bitsLSB b).take k).foldl shiftIn 0 ≠ 255 := by
  decide

theorem edges_nil (s : State) : edges [] s = s := rfl

theorem edges_cons (e : Nat) (es : List Nat) (s : State) :
    edges (e :: es) s = edges es (edge e s) := rfl

theorem edges_append (es fs : List Nat) (s : State) :
    edges (es ++ fs) s = edges fs (edges es s) := by
  simp [edges, List.foldl_append]

theorem edges_data {bits : List Bool} {ds : List Nat} (h : List.Forall₂ EncodesBit bits ds) :
    ∀ s : State, 2 ≤ s.bitCounter → s.bitCounter + ds.length ≤ 10 →
      (edges ds s).bitCounter = s.bitCounter + ds.length ∧
      (edges ds s).rxData = bits.foldl shiftIn s.rxData ∧
      (edges ds s).validBytes = s.validBytes ∧ (edges ds s).shown = s.shown := by
  induction h with
  | nil => intro s _ _; simp [edges_nil]
  | @cons bit t bits ds hbt _ ih =>
    intro s h2 h10
    simp only [List.length_cons] at h10
    obtain ⟨ht, hband⟩ := hbt
    obtain ⟨hone, _, hzero⟩ := edge_data t s h2 (by omega) ht
    rw [edges_cons]
    cases bit with
    | true =>
      simp only [if_true] at hband
      obtain ⟨a1, a2, a3, a4⟩ := hone hband
      obtain ⟨b1, b2, b3, b4⟩ := ih (edge t s) (by omega) (by omega)
      refine ⟨by rw [b1, a1, List.length_cons]; omega, ?_, by rw [b3, a3], by rw [b4, a4]⟩
      rw [b2, a2]; simp [shiftIn]
    | false =>
      simp only [Bool.false_eq_true, if_false] at hband
      obtain ⟨a1, a2, a3, a4⟩ := hzero hband
      obtain ⟨b1, b2, b3, b4⟩ := ih (edge t s) (by omega) (by omega)
      refine ⟨by rw [b1, a1, List.length_cons]; omega, ?_, by rw [b3, a3], by rw [b4, a4]⟩
      rw [b2, a2]; simp [shiftIn]

theorem EncodesByte.length_eq {b : Nat} {ds : List Nat} (h : EncodesByte b ds) :
    ds.length = 8 := by
  have := List.Forall₂.length_eq h
  rw [bitsLSB_length] at this
  exact this.symm

/-- State of the decoder after the first `k ≤ 10` edges of a valid frame. -/
theorem frame_prefix (b t0 ts tstop : Nat) (ds : List Nat) (s : State)
    (hbc : s.bitCounter = 0) (hrx : s.rxData = 0) (hts : StartPulse ts)
    (hds : EncodesByte b ds) (k : Nat) (hk : k ≤ 10) :
    (edges ((frame t0 ts ds tstop).take k) s).bitCounter = k ∧
    (edges ((frame t0 ts ds tstop).take k) s).rxData
      = ((bitsLSB b).take (k - 2)).foldl shiftIn 0 ∧
    (edges ((frame t0 ts ds tstop).take k) s).validBytes = s.validBytes ∧
    (edges ((frame t0 ts ds tstop).take k) s).shown = s.shown := by
  obtain ⟨f1, f2, f3, f4⟩ := edge_first t0 s hbc
  match k, hk with
  | 0, _ => simp [edges_nil, hbc, hrx]
  | 1, _ =>
    simp only [frame, List.take_succ_cons, List.take_zero, edges_cons, edges_nil]
    exact ⟨f1, by simp [f2, hrx], f3, f4⟩
  | j + 2, hj =>
    have hlen := hds.length_eq
    have hts16 : ts < 65536 := by unfold StartPulse at hts; omega
    obtain ⟨g1, g2, g3, g4⟩ := (edge_start ts (edge t0 s) f1 hts16).1 hts
    have htake : (ds ++ [tstop]).take j = ds.take j := by
      rw [List.take_append_of_le_length (by omega)]
    simp only [frame, List.take_succ_cons, edges_cons, htake]
    have hfa : List.Forall₂ EncodesBit ((bitsLSB b).take j) (ds.take j) :=
      List.forall₂_take j hds
    have hl : (ds.take j).length = j := by rw [List.length_take]; omega
    obtain ⟨d1, d2, d3, d4⟩ := edges_data hfa (edge ts (edge t0 s)) (by omega) (by omega)
    refine ⟨by rw [d1, g1, hl]; omega, ?_, by rw [d3, g3, f3], by rw [d4, g4, f4]⟩
    rw [d2, g2, f2, hrx]
    simp

/-- Core fact about one valid frame handled by `Port_1` alone. -/
theorem frame_decodes (b t0 ts tstop : Nat) (ds : List Nat) (s : State)
    (hbc : s.bitCounter = 0) (hrx : s.rxData = 0) (hb : b < 256) (hts : StartPulse ts)
    (hds : EncodesByte b ds) :
    (edges (frame t0 ts ds tstop) s).bitCounter = 0 ∧
    (edges (frame t0 ts ds tstop) s).rxData = 0 ∧
    (edges (frame t0 ts ds tstop) s).validBytes = wrapInt16 (s.validBytes + 1) ∧
    (edges (frame t0 ts ds tstop) s).shown = s.shown ++ [b] := by
  have hlen := hds.length_eq
  obtain ⟨p1, p2, p3, p4⟩ := frame_prefix b t0 ts tstop ds s hbc hrx hts hds 10 (le_refl _)
  have hsplit : frame t0 ts ds tstop = (frame t0 ts ds tstop).take 10 ++ [tstop] := by
    simp [frame, List.take_succ_cons, List.take_append_of_le_length, hlen]
  rw [hsplit, edges_append, edges_cons, edges_nil]
  obtain ⟨q1, q2, q3, q4⟩ := edge_stop tstop _ p1
  refine ⟨q1, q2, by rw [q3, p3], ?_⟩
  rw [q4, p4, p2]
  have : (bitsLSB b).take (10 - 2) = bitsLSB b := by
    rw [List.take_of_length_le]; rw [bitsLSB_length]
  rw [this, shiftIn_bits b hb, Nat.mod_eq_of_lt hb]

/-! ## IR receiver: main loop polled between edges -/

theorem mainLoop_skip (s : State) (h : s.rxData ≠ 255) : mainLoop s = s := by
  simp [mainLoop, h]

theorem mainLoop_fire (s : State) (h : s.rxData = 255) :
    (mainLoop s).bitCounter = 0 ∧ (mainLoop s).rxData = 0 ∧ (mainLoop s).validBytes = 0 ∧
    (mainLoop s).shown = s.shown ++ [(255 - (s.validBytes % 256).toNat) % 256] := by
  simp [mainLoop, h, reset]

/-- Polling the main loop again right away changes nothing more. -/
theorem mainLoop_idem (s : State) : mainLoop (mainLoop s) = mainLoop s := by
  by_cases h : s.rxData = 255
  · exact mainLoop_skip _ (by rw [(mainLoop_fire s h).2.1]; omega)
  · rw [mainLoop_skip s h, mainLoop_skip s h]

theorem edgesPolled_nil (s : State) : edgesPolled [] s = s := rfl

theorem edgesPolled_cons (e : Nat) (es : List Nat) (s : State) :
    edgesPolled (e :: es) s = edgesPolled es (mainLoop (edge e s)) := rfl

theorem edgesPolled_append (es fs : List Nat) (s : State) :
    edgesPolled (es ++ fs) s = edgesPolled fs (edgesPolled es s) := by
  simp [edgesPolled, List.foldl_append]

/-- Polling the main loop changes nothing as long as no intermediate state holds
the sentinel in `rxData`. -/
theorem edgesPolled_eq_edges : ∀ (es : List Nat) (s : State),
    (∀ k, 0 < k → k ≤ es.length → (edges (es.take k) s).rxData ≠ 255) →
    edgesPolled es s = edges es s := by
  intro es
  induction es with
  | nil => intro s _; rfl
  | cons e es ih =>
    intro s h
    have h1 : (edge e s).rxData ≠ 255 := by
      have := h 1 (by omega) (by simp)
      simpa [edges_cons, edges_nil] using this
    rw [edgesPolled_cons, edges_cons, mainLoop_skip _ h1]
    apply ih
    intro k hk hkl
    have := h (k + 1) (by omega) (by simp; omega)
    simpa [List.take_succ_cons, edges_cons] using this

theorem frame_length (t0 ts tstop : Nat) (ds : List Nat) (h : ds.length = 8) :
    (frame t0 ts ds tstop).length = 11 := by
  simp [frame, h]

theorem frame_take_ten (t0 ts tstop : Nat) (ds : List Nat) (h : ds.length = 8) :
    frame t0 ts ds tstop = (frame t0 ts ds tstop).take 10 ++ [tstop] := by
  simp [frame, List.take_succ_cons, List.take_append_of_le_length, h]

/-- A valid frame for a byte other than the sentinel is decoded the same way with
the main loop polled after every edge. -/
theorem frame_polled (b t0 ts tstop : Nat) (ds : List Nat) (s : State)
    (hbc : s.bitCounter = 0) (hrx : s.rxData = 0) (hb : b < 255) (hts : StartPulse ts)
    (hds : EncodesByte b ds) :
    edgesPolled (frame t0 ts ds tstop) s = edges (frame t0 ts ds tstop) s := by
  have hlen := hds.length_eq
  apply edgesPolled_eq_edges
  intro k hk hkl
  rw [frame_length t0 ts tstop ds hlen] at hkl
  by_cases h10 : k ≤ 10
  · obtain ⟨_, p2, _, _⟩ :=
      frame_prefix b t0 ts tstop ds s hbc hrx hts hds k h10
    rw [p2]
    by_cases h8 : k - 2 < 8
    · exact shiftIn_partial b (by omega) (k - 2) h8
    · have : (bitsLSB b).take (k - 2) = bitsLSB b := by
        rw [List.take_of_length_le]; rw [bitsLSB_length]; omega
      rw [this, shiftIn_bits b (by omega)]
      omega
  · have hk11 : k = 11 := by omega
    have : (frame t0 ts ds tstop).take k = frame t0 ts ds tstop := by
      rw [List.take_of_length_le]; rw [frame_length t0 ts tstop ds hlen]; omega
    rw [this, (frame_decodes b t0 ts tstop ds s hbc hrx (by omega) hts hds).2.1]
    omega

/-- A valid frame for the sentinel 255 with the main loop polled: the main loop
consumes the byte after the eighth data edge, displays `255 - (unsigned char)validBytes`
and clears `validBytes`; the stop edge then counts as the first edge of a new frame. -/
theorem sentinel_polled (t0 ts tstop : Nat) (ds : List Nat) (s : State)
    (hbc : s.bitCounter = 0) (hrx : s.rxData = 0) (hts : StartPulse ts)
    (hds : EncodesByte 255 ds) :
    (edgesPolled (frame t0 ts ds tstop) s).bitCounter = 1 ∧
    (edgesPolled (frame t0 ts ds tstop) s).rxData = 0 ∧
    (edgesPolled (frame t0 ts ds tstop) s).validBytes = 0 ∧
    (edgesPolled (frame t0 ts ds tstop) s).shown
      = s.shown ++ [(255 - (s.validBytes % 256).toNat) % 256] := by
  have hlen := hds.length_eq
  have hfl := frame_length t0 ts tstop ds hlen
  -- the first nine edges never produce the sentinel
  have h9 : edgesPolled ((frame t0 ts ds tstop).take 9) s
      = edges ((frame t0 ts ds tstop).take 9) s := by
    apply edgesPolled_eq_edges
    intro k hk hkl
    have hk9 : k ≤ 9 := by
      rw [List.length_take, hfl] at hkl; omega
    rw [List.take_take, Nat.min_eq_left hk9]
    obtain ⟨_, p2, _, _⟩ :=
      frame_prefix 255 t0 ts tstop ds s hbc hrx hts hds k (by omega)
    rw [p2]
    exact shiftIn_partial 255 (by omega) (k - 2) (by omega)
  -- the tenth edge completes the accumulator
  obtain ⟨x, hx⟩ : ∃ x, (frame t0 ts ds tstop).take 10
      = (frame t0 ts ds tstop).take 9 ++ [x] := by
    have h := List.take_add (frame t0 ts ds tstop) 9 1
    cases hd : (frame t0 ts ds tstop).drop 9 with
    | nil =>
      have := congrArg List.length hd
      rw [List.length_drop, hfl] at this
      simp at this
    | cons x rest =>
      refine ⟨x, ?_⟩
      rw [hd] at h
      simpa using h
  obtain ⟨p1, p2, p3, p4⟩ :=
    frame_prefix 255 t0 ts tstop ds s hbc hrx hts hds 10 (le_refl _)
  have hacc : (edges ((frame t0 ts ds tstop).take 10) s).rxData = 255 := by
    rw [p2]
    have : (bitsLSB 255).take (10 - 2) = bitsLSB 255 := by
      rw [List.take_of_length_le]; rw [bitsLSB_length]
    rw [this, shiftIn_bits 255 (by omega)]
  have h10 : edgesPolled ((frame t0 ts ds tstop).take 10) s
      = mainLoop (edges ((frame t0 ts ds tstop).take 10) s) := by
    rw [hx, edgesPolled_append, edgesPolled_cons, edgesPolled_nil, h9, edges_append,
      edges_cons, edges_nil]
  obtain ⟨m1, m2, m3, m4⟩ := mainLoop_fire _ hacc
  rw [frame_take_ten t0 ts tstop ds hlen, edgesPolled_append, edgesPolled_cons, edgesPolled_nil, h10]
  obtain ⟨f1, f2, f3, f4⟩ := edge_first tstop _ m1
  have hne : (edge tstop (mainLoop (edges ((frame t0 ts ds tstop).take 10) s))).rxData
      ≠ 255 := by rw [f2, m2]; omega
  rw [mainLoop_skip _ hne]
  exact ⟨f1, by rw [f2, m2], by rw [f3, m3], by rw [f4, m4, p4, p3]⟩

/-- Valid frames for bytes other than the sentinel, received with the main loop
polled: every byte is emitted in order and counted. -/
theorem frames_polled {bs : List Nat} {fs : List (List Nat)}
    (h : List.Forall₂ IsFrameOf bs fs) :
    ∀ s : State, (∀ b ∈ bs, b < 255) → s.bitCounter = 0 → s.rxData = 0 →
      0 ≤ s.validBytes → s.validBytes + bs.length ≤ 32767 →
      (edgesPolled fs.flatten s).bitCounter = 0 ∧
      (edgesPolled fs.flatten s).rxData = 0 ∧
      (edgesPolled fs.flatten s).validBytes = s.validBytes + bs.length ∧
      (edgesPolled fs.flatten s).shown = s.shown ++ bs := by
  induction h with
  | nil => intro s _ hbc hrx _ _; simp [edgesPolled_nil, hbc, hrx]
  | @cons b f bs fs hf _ ih =>
    intro s hlt hbc hrx hv0 hv1
    obtain ⟨t0, ts, ds, tstop, rfl, hts, hds⟩ := hf
    have hb : b < 255 := hlt b (by simp)
    simp only [List.length_cons, Nat.cast_add, Nat.cast_one] at hv1
    obtain ⟨d1, d2, d3, d4⟩ :=
      frame_decodes b t0 ts tstop ds s hbc hrx (by omega) hts hds
    rw [wrapInt16_id _ (by omega) (by omega)] at d3
    rw [List.flatten_cons, edgesPolled_append, frame_polled b t0 ts tstop ds s hbc hrx hb hts hds]
    obtain ⟨e1, e2, e3, e4⟩ := ih (edges (frame t0 ts ds tstop) s)
      (fun c hc => hlt c (by simp [hc])) d1 d2 (by omega) (by omega)
    refine ⟨e1, e2, ?_, ?_⟩
    · rw [e3, d3]; simp only [List.length_cons, Nat.cast_add, Nat.cast_one]; omega
    · rw [e4, d4]; simp

theorem nominal_isFrameOf (b : Nat) : IsFrameOf b (nominalFrame b) := by
  refine ⟨0, 1872, _, 2496, rfl, by decide, ?_⟩
  unfold EncodesByte
  rw [List.forall₂_map_right_iff, List.forall₂_same]
  intro x _
  cases x <;> decide

theorem nominal_frames (bs : List Nat) : List.Forall₂ IsFrameOf bs (bs.map nominalFrame) := by
  rw [List.forall₂_map_right_iff, List.forall₂_same]
  intro b _
  exact nominal_isFrameOf b

/-! ## IR receiver: LED display -/

theorem showByteBody_set (x : Nat) (s : State) : ∀ i, i < 8 →
    ledLines (showByteBody i x s) = (ledLines s).set i (x.testBit 0) := by
  intro i hi
  by_cases hx : x.testBit 0 = true
  · have hx' : x % 2 = 1 := by simpa [Nat.testBit_zero] using hx
    interval_cases i <;>
      simp +decide [showByteBody, hx', hx, ledLines, LEDpinMap, bis8, bic8, bnot16,
        BIT0, BIT1, BIT2, BIT3, BIT4, BIT5, testBit_mod256, Nat.testBit_lor]
  · have hx' : ¬ (x % 2 = 1) := by simpa [Nat.testBit_zero] using hx
    interval_cases i <;>
      simp +decide [showByteBody, hx', hx, ledLines, LEDpinMap, bis8, bic8, bnot16,
        BIT0, BIT1, BIT2, BIT3, BIT4, BIT5, testBit_mod256, Nat.testBit_land]

theorem showByteBody_lines (x : Nat) (s : State) (i : Nat) (hi : i < 8) (j : Nat) :
    (ledLines (showByteBody i x s)).getD j false
      = if j = i then x.testBit 0 else (ledLines s).getD j false := by
  rw [showByteBody_set x s i hi, List.getD_eq_getElem?_getD, List.getD_eq_getElem?_getD,
    List.getElem?_set]
  have hl : (ledLines s).length = 8 := rfl
  by_cases h : i = j
  · subst h
    simp [hl, hi]
  · have h' : ¬ j = i := fun e => h e.symm
    simp [h, h']

theorem showByteLoop_lines (fuel : Nat) : ∀ (i x : Nat) (s : State), i + fuel = 8 →
    ∀ j, j < 8 → (ledLines (showByteLoop fuel i x s)).getD j false
      = if j < i then (ledLines s).getD j false else x.testBit (j - i) := by
  induction fuel with
  | zero =>
    intro i x s hi j hj
    have : j < i := by omega
    simp [showByteLoop, this]
  | succ n ih =>
    intro i x s hi j hj
    have hi8 : i < 8 := by omega
    rw [showByteLoop, if_pos hi8, ih (i + 1) _ _ (by omega) j hj,
      showByteBody_lines x s i hi8 j]
    by_cases h1 : j < i
    · have h2 : j < i + 1 := by omega
      have h3 : j ≠ i := by omega
      simp [h1, h2, h3]
    · by_cases h2 : j = i
      · subst h2
        simp
      · have h3 : ¬ j < i + 1 := by omega
        have h4 : j - i = (j - (i + 1)) + 1 := by omega
        rw [if_neg h3, if_neg h1, h4, testBit_shift_byte _ _ (by omega)]

theorem showByte_lines (x : Nat) (hx : x < 256) (s : State) :
    ledLines (showByte x s) = bitsLSB x := by
  have hm : x % 256 = x := Nat.mod_eq_of_lt hx
  have key : ∀ j, j < 8 → (ledLines (showByte x s)).getD j false = x.testBit j := by
    intro j hj
    have h := showByteLoop_lines 8 0 (x % 256) { s with shown := s.shown ++ [x % 256] }
      rfl j hj
    rw [if_neg (Nat.not_lt_zero j), Nat.sub_zero, hm] at h
    rw [showByte, hm]
    exact h
  have e0 : (showByte x s).P1OUT.testBit 4 = x.testBit 0 := key 0 (by omega)
  have e1 : (showByte x s).P1OUT.testBit 5 = x.testBit 1 := key 1 (by omega)
  have e2 : (showByte x s).P2OUT.testBit 0 = x.testBit 2 := key 2 (by omega)
  have e3 : (showByte x s).P2OUT.testBit 1 = x.testBit 3 := key 3 (by omega)
  have e4 : (showByte x s).P2OUT.testBit 2 = x.testBit 4 := key 4 (by omega)
  have e5 : (showByte x s).P2OUT.testBit 3 = x.testBit 5 := key 5 (by omega)
  have e6 : (showByte x s).P2OUT.testBit 4 = x.testBit 6 := key 6 (by omega)
  have e7 : (showByte x s).P2OUT.testBit 5 = x.testBit 7 := key 7 (by omega)
  rw [bitsLSB_eq, ledLines, e0, e1, e2, e3, e4, e5, e6, e7]

end IR_Receiver

namespace IR_Receiver

/-! ## IR receiver: mode bits after `reset()` -/

theorem reset_falling (x : Nat) : bis8 x IR_DETECTOR_PIN &&& IR_DETECTOR_PIN ≠ 0 :=
  flag_pending x

theorem reset_ccie (x : Nat) : bic16 x CCIE &&& CCIE = 0 := by
  apply Nat.eq_of_testBit_eq
  intro i
  show (((x &&& ((2 ^ 16 - 1) ^^^ 2 ^ 4)) % 2 ^ 16) &&& 2 ^ 4).testBit i = Nat.testBit 0 i
  rw [Nat.testBit_land, Nat.testBit_mod_two_pow, Nat.testBit_land, Nat.testBit_xor,
    Nat.testBit_two_pow_sub_one, Nat.testBit_two_pow, Nat.zero_testBit]
  by_cases h : 4 = i
  · subst h; simp
  · simp [h]

end IR_Receiver

open IR_Receiver

/-! ## Claims about the IR receiver -/

/-- C1: from the idle decoder (`bitCounter = 0`, `rxData = 0`), for every byte `b`, the
edge handler fed a first edge, a start edge with `600 ≤ ts ≤ 2200`, eight data edges
whose elapsed times encode the bits of `b` least significant bit first, and one stop
edge with any elapsed time calls `showByte` with exactly `b`, increments `validBytes`
by one (in 16-bit `int` arithmetic, hence by exactly 1 below `INT_MAX`) and leaves the
decoder idle; after any `k ≤ 10` of these edges, i.e. before the stop edge, nothing
has been emitted and `validBytes` is unchanged. -/
theorem C1_valid_frame_emits_byte (s : State) (b t0 ts tstop : Nat) (ds : List Nat)
    (hbc : s.bitCounter = 0) (hrx : s.rxData = 0) (hb : b < 256)
    (hts : StartPulse ts) (hds : EncodesByte b ds) :
    (edges (frame t0 ts ds tstop) s).shown = s.shown ++ [b] ∧
    (edges (frame t0 ts ds tstop) s).validBytes = wrapInt16 (s.validBytes + 1) ∧
    (-32768 ≤ s.validBytes → s.validBytes < 32767 →
      (edges (frame t0 ts ds tstop) s).validBytes = s.validBytes + 1) ∧
    (edges (frame t0 ts ds tstop) s).bitCounter = 0 ∧
    (edges (frame t0 ts ds tstop) s).rxData = 0 ∧
    (∀ k, k ≤ 10 →
      (edges ((frame t0 ts ds tstop).take k) s).shown = s.shown ∧
      (edges ((frame t0 ts ds tstop).take k) s).validBytes = s.validBytes) := by
  obtain ⟨d1, d2, d3, d4⟩ :=
    frame_decodes b t0 ts tstop ds s hbc hrx hb hts hds
  refine ⟨d4, d3, ?_, d1, d2, ?_⟩
  · intro h0 h1
    rw [d3, wrapInt16_id _ (by omega) (by omega)]
  · intro k hk
    obtain ⟨_, _, p3, p4⟩ :=
      frame_prefix b t0 ts tstop ds s hbc hrx hts hds k hk
    exact ⟨p4, p3⟩

/-- Witness for C1: the byte 0xA5 with nominal timing, from the power-on state. -/
theorem C1_valid_frame_emits_byte_witness :
    (StartPulse 1872 ∧
      EncodesByte 0xA5 [1872, 1248, 1872, 1248, 1248, 1872, 1248, 1872]) ∧
    (edges (frame 0 1872 [1872, 1248, 1872, 1248, 1248, 1872, 1248, 1872] 2496)
      powerOn).shown = [0xA5] :=
  ⟨⟨by decide, by decide⟩,
   (C1_valid_frame_emits_byte powerOn 0xA5 0 1872 2496
      [1872, 1248, 1872, 1248, 1248, 1872, 1248, 1872]
      rfl rfl (by decide) (by decide) (by decide)).1⟩

/-- C2: at `bitCounter = 1`, for every 16-bit elapsed time `e`, the edge handler
advances to `bitCounter = 2` if and only if `600 ≤ e ≤ 2200`; in that case nothing is
reset (accumulator, edge selection and timeout enable are untouched); for every other
`e` the decoder is reset to idle (`bitCounter = 0`, `rxData = 0`, falling edge
selected, timeout interrupt disabled).  No byte is emitted either way. -/
theorem C2_start_window (s : State) (e : Nat) (hbc : s.bitCounter = 1) (he : e < 65536) :
    ((edge e s).bitCounter = 2 ↔ 600 ≤ e ∧ e ≤ 2200) ∧
    (600 ≤ e ∧ e ≤ 2200 →
      (edge e s).bitCounter = 2 ∧ (edge e s).rxData = s.rxData ∧
      (edge e s).P1IES = s.P1IES ∧ (edge e s).TA0CCTL0 = s.TA0CCTL0) ∧
    (¬ (600 ≤ e ∧ e ≤ 2200) →
      Idle (edge e s) ∧ FallingEdgeSelected (edge e s) ∧ ¬ TimeoutEnabled (edge e s)) ∧
    (edge e s).shown = s.shown ∧ (edge e s).validBytes = s.validBytes := by
  have hm : e % 65536 = e := Nat.mod_eq_of_lt he
  by_cases hr : 600 ≤ e ∧ e ≤ 2200
  · have hc : ¬ (e < Tsmin ∨ e > Tsmax) := by simp [Tsmin, Tsmax]; omega
    have h2 : (edge e s).bitCounter = 2 := by
      simp [edge, Port_1, flag_pending, hbc, restartTimer, hm, hc]
    refine ⟨⟨fun _ => hr, fun _ => h2⟩, fun _ => ⟨h2, ?_, ?_, ?_⟩, fun h => absurd hr h, ?_, ?_⟩ <;>
      simp [edge, Port_1, flag_pending, hbc, restartTimer, hm, hc]
  · have hc : e < Tsmin ∨ e > Tsmax := by simp [Tsmin, Tsmax]; omega
    have h0 : (edge e s).bitCounter = 0 := by
      simp [edge, Port_1, flag_pending, hbc, reset, hm, hc]
    refine ⟨⟨fun h => ?_, fun h => absurd h hr⟩, fun h => absurd h hr,
      fun _ => ⟨⟨h0, ?_⟩, ?_, ?_⟩, ?_, ?_⟩
    · rw [h0] at h; omega
    · simp [edge, Port_1, flag_pending, hbc, reset, hm, hc]
    · have : (edge e s).P1IES = bis8 s.P1IES IR_DETECTOR_PIN := by
        simp [edge, Port_1, flag_pending, hbc, reset, hm, hc]
      unfold FallingEdgeSelected
      rw [this]
      exact reset_falling _
    · have : (edge e s).TA0CCTL0 = bic16 s.TA0CCTL0 CCIE := by
        simp [edge, Port_1, flag_pending, hbc, reset, hm, hc]
      unfold TimeoutEnabled
      rw [this, reset_ccie]
      simp
    · simp [edge, Port_1, flag_pending, hbc, reset, hm, hc]
    · simp [edge, Port_1, flag_pending, hbc, reset, hm, hc]

/-- Witness for C2: a nominal start pulse of 1872 ticks seen one edge after power-on. -/
theorem C2_start_window_witness :
    (edge 0 powerOn).bitCounter = 1 ∧ (edge 1872 (edge 0 powerOn)).bitCounter = 2 :=
  ⟨rfl, ((C2_start_window (edge 0 powerOn) 1872 rfl (by decide)).1).2 (by decide)⟩

/-- C3: at a data position (`bitCounter` in 2..9, `rxData` an 8-bit value), for every
16-bit elapsed time `e`: the pulse is a ONE (bit 7 of the shifted accumulator set,
`bitCounter` advanced) if and only if `1700 < e < 2200`; it is INVALID (decoder reset
to idle) if and only if `e < 800`; in every other case it is a ZERO (accumulator
shifted right with bit 7 clear, `bitCounter` advanced).  No byte is emitted. -/
theorem C3_data_classification (s : State) (e : Nat) (h2 : 2 ≤ s.bitCounter)
    (h9 : s.bitCounter ≤ 9) (hrx : s.rxData < 256) (he : e < 65536) :
    (((edge e s).rxData.testBit 7 = true ∧ (edge e s).bitCounter = s.bitCounter + 1)
      ↔ (1700 < e ∧ e < 2200)) ∧
    (1700 < e ∧ e < 2200 → (edge e s).rxData = (s.rxData >>> 1) ||| 0x80) ∧
    (Idle (edge e s) ↔ e < 800) ∧
    (¬ (1700 < e ∧ e < 2200) → ¬ e < 800 →
      (edge e s).rxData = s.rxData >>> 1 ∧ (edge e s).rxData.testBit 7 = false ∧
      (edge e s).bitCounter = s.bitCounter + 1) ∧
    (edge e s).shown = s.shown ∧ (edge e s).validBytes = s.validBytes := by
  obtain ⟨hone, hinv, hzero⟩ := edge_data e s h2 h9 he
  have hsh : s.rxData >>> 1 < 128 := by
    rw [Nat.shiftRight_eq_div_pow]; omega
  have hm : (s.rxData >>> 1) % 256 = s.rxData >>> 1 := Nat.mod_eq_of_lt (by omega)
  have hb7 : (s.rxData >>> 1).testBit 7 = false :=
    Nat.testBit_lt_two_pow (by omega)
  have hor : ((s.rxData >>> 1) ||| 0x80) % 256 = (s.rxData >>> 1) ||| 0x80 :=
    Nat.mod_eq_of_lt (Nat.or_lt_two_pow (n := 8) (by omega) (by omega))
  have hor7 : ((s.rxData >>> 1) ||| 0x80).testBit 7 = true := by
    rw [Nat.testBit_lor]
    simp +decide
  by_cases c1 : 1700 < e ∧ e < 2200
  · obtain ⟨a1, a2, a3, a4⟩ := hone c1
    rw [hm, hor] at a2
    refine ⟨⟨fun _ => c1, fun _ => ⟨by rw [a2]; exact hor7, a1⟩⟩, fun _ => a2,
      ⟨fun h => ?_, fun h => ?_⟩, fun h => absurd c1 h, a4, a3⟩
    · have := h.1; rw [a1] at this; omega
    · omega
  · by_cases c2 : e < 800
    · obtain ⟨a1, a2, a3, a4⟩ := hinv c2
      refine ⟨⟨fun h => ?_, fun h => absurd h c1⟩, fun h => absurd h c1,
        ⟨fun _ => c2, fun _ => ⟨a1, a2⟩⟩, fun _ h => absurd c2 h, a4, a3⟩
      have := h.2; rw [a1] at this; omega
    · obtain ⟨a1, a2, a3, a4⟩ := hzero ⟨by omega, c1⟩
      rw [hm] at a2
      refine ⟨⟨fun h => ?_, fun h => absurd h c1⟩, fun h => absurd h c1,
        ⟨fun h => ?_, fun h => absurd h c2⟩, fun _ _ => ⟨a2, by rw [a2]; exact hb7, a1⟩,
        a4, a3⟩
      · have := h.1; rw [a2, hb7] at this; exact absurd this (by decide)
      · have := h.1; rw [a1] at this; omega

/-- Witness for C3: a 1872-tick pulse at the first data position is a ONE. -/
theorem C3_data_classification_witness :
    (edge 1872 (edge 0 powerOn)).bitCounter = 2 ∧
    (edge 1872 (edge 1872 (edge 0 powerOn))).rxData = 0x80 :=
  ⟨rfl, (C3_data_classification (edge 1872 (edge 0 powerOn)) 1872
      (by decide) (by decide) (by decide) (by decide)).2.1 (by decide)⟩

/-- C4, as stated, fails: from power-on, after a first edge and a 1872-tick start
edge, eight data edges of 312 µs (624 ticks) and a stop edge emit no byte at all and
leave `validBytes` at 0, because 624 ticks is below `T0min = 800`. -/
theorem C4_counterexample :
    (edges (frame 0 1872 (List.replicate 8 624) 2496) powerOn).shown = [] ∧
    (edges (frame 0 1872 (List.replicate 8 624) 2496) powerOn).validBytes = 0 := by
  decide

/-- C4, amended: from the idle decoder, a first edge, a start edge after 936 µs
(1872 ticks), eight data edges each after 624 µs (1248 ticks: the 312 µs pause plus
the 312 µs pulse of a 0 bit) and one stop edge make the edge handler call `showByte`
with 0x00 and increment `validBytes`. -/
theorem C4_zero_byte (s : State) (t0 tstop : Nat)
    (hbc : s.bitCounter = 0) (hrx : s.rxData = 0) :
    (edges (frame t0 1872 (List.replicate 8 1248) tstop) s).shown = s.shown ++ [0x00] ∧
    (edges (frame t0 1872 (List.replicate 8 1248) tstop) s).validBytes
      = wrapInt16 (s.validBytes + 1) ∧
    (-32768 ≤ s.validBytes → s.validBytes < 32767 →
      (edges (frame t0 1872 (List.replicate 8 1248) tstop) s).validBytes
        = s.validBytes + 1) := by
  obtain ⟨_, _, d3, d4⟩ := frame_decodes 0 t0 1872 tstop
    (List.replicate 8 1248) s hbc hrx (by decide) (by decide) (by decide)
  refine ⟨d4, d3, fun h0 h1 => ?_⟩
  rw [d3, wrapInt16_id _ (by omega) (by omega)]

/-- Witness for the amended C4, from the power-on state. -/
theorem C4_zero_byte_witness :
    (powerOn.bitCounter = 0 ∧ powerOn.rxData = 0) ∧
    (edges (frame 0 1872 (List.replicate 8 1248) 2496) powerOn).shown = [0x00] :=
  ⟨⟨rfl, rfl⟩, (C4_zero_byte powerOn 0 2496 rfl rfl).1⟩

/-- C5, as stated, fails: from power-on, eight data edges of 624 µs (1248 ticks) after
a valid start are eight ZEROs, so the byte emitted at the stop edge is 0x00, not
0xFF. -/
theorem C5_counterexample :
    (edges (frame 0 1872 (List.replicate 8 1248) 2496) powerOn).shown = [0x00] ∧
    (edges (frame 0 1872 (List.replicate 8 1248) 2496) powerOn).shown ≠ [0xFF] := by
  decide

/-- C5, amended: from the idle decoder, a first edge, a start edge after 936 µs
(1872 ticks), eight data edges each after 936 µs (1872 ticks: the 312 µs pause plus
the 624 µs pulse of a 1 bit) and one stop edge make the edge handler call `showByte`
with 0xFF and increment `validBytes`. -/
theorem C5_ones_byte (s : State) (t0 tstop : Nat)
    (hbc : s.bitCounter = 0) (hrx : s.rxData = 0) :
    (edges (frame t0 1872 (List.replicate 8 1872) tstop) s).shown = s.shown ++ [0xFF] ∧
    (edges (frame t0 1872 (List.replicate 8 1872) tstop) s).validBytes
      = wrapInt16 (s.validBytes + 1) ∧
    (-32768 ≤ s.validBytes → s.validBytes < 32767 →
      (edges (frame t0 1872 (List.replicate 8 1872) tstop) s).validBytes
        = s.validBytes + 1) := by
  obtain ⟨_, _, d3, d4⟩ := frame_decodes 0xFF t0 1872 tstop
    (List.replicate 8 1872) s hbc hrx (by decide) (by decide) (by decide)
  refine ⟨d4, d3, fun h0 h1 => ?_⟩
  rw [d3, wrapInt16_id _ (by omega) (by omega)]

/-- Witness for the amended C5, from the power-on state. -/
theorem C5_ones_byte_witness :
    (powerOn.bitCounter = 0 ∧ powerOn.rxData = 0) ∧
    (edges (frame 0 1872 (List.replicate 8 1872) 2496) powerOn).shown = [0xFF] :=
  ⟨⟨rfl, rfl⟩, (C5_ones_byte powerOn 0 2496 rfl rfl).1⟩

/-- C6: at a data position (`bitCounter` in 2..9, any accumulator, any `validBytes`) an
INVALID edge (`e < 800`) leaves the decoder idle with the accumulator discarded, emits
no byte and leaves `validBytes` unchanged; a valid frame for any byte `b` handled right
after the abort emits exactly `b` and ends idle, which is what the same frame does
from the power-on state. -/
theorem C6_abort_then_clean_decode (s : State) (e : Nat) (h2 : 2 ≤ s.bitCounter)
    (h9 : s.bitCounter ≤ 9) (he : e < 800) :
    (Idle (edge e s) ∧ (edge e s).shown = s.shown ∧
      (edge e s).validBytes = s.validBytes) ∧
    ∀ (b t0 ts tstop : Nat) (ds : List Nat), b < 256 → StartPulse ts → EncodesByte b ds →
      (edges (frame t0 ts ds tstop) (edge e s)).shown = s.shown ++ [b] ∧
      (edges (frame t0 ts ds tstop) powerOn).shown = [b] ∧
      Idle (edges (frame t0 ts ds tstop) (edge e s)) ∧
      Idle (edges (frame t0 ts ds tstop) powerOn) ∧
      (edges (frame t0 ts ds tstop) (edge e s)).validBytes
        = wrapInt16 (s.validBytes + 1) := by
  obtain ⟨a1, a2, a3, a4⟩ := (edge_data e s h2 h9 (by omega)).2.1 he
  refine ⟨⟨⟨a1, a2⟩, a4, a3⟩, ?_⟩
  intro b t0 ts tstop ds hb hts hds
  obtain ⟨d1, d2, d3, d4⟩ :=
    frame_decodes b t0 ts tstop ds (edge e s) a1 a2 hb hts hds
  obtain ⟨p1, p2, _, p4⟩ :=
    frame_decodes b t0 ts tstop ds powerOn rfl rfl hb hts hds
  exact ⟨by rw [d4, a4], by rw [p4]; rfl, ⟨d1, d2⟩, ⟨p1, p2⟩, by rw [d3, a3]⟩

/-- Witness for C6: a 100-tick glitch at the first data position, then 0xA5. -/
theorem C6_abort_then_clean_decode_witness :
    (edge 1872 (edge 0 powerOn)).bitCounter = 2 ∧
    Idle (edge 100 (edge 1872 (edge 0 powerOn))) ∧
    (edges (frame 0 1872 [1872, 1248, 1872, 1248, 1248, 1872, 1248, 1872] 2496)
      (edge 100 (edge 1872 (edge 0 powerOn)))).shown = [0xA5] :=
  ⟨rfl,
   (C6_abort_then_clean_decode (edge 1872 (edge 0 powerOn)) 100
      (by decide) (by decide) (by decide)).1.1,
   ((C6_abort_then_clean_decode (edge 1872 (edge 0 powerOn)) 100
      (by decide) (by decide) (by decide)).2 0xA5 0 1872 2496
      [1872, 1248, 1872, 1248, 1248, 1872, 1248, 1872]
      (by decide) (by decide) (by decide)).1⟩

/-- C7: in every state, the timeout handler `Timer_A` leaves the decoder idle
(`bitCounter = 0`, `rxData = 0`) with falling-edge detection selected and the timeout
interrupt disabled; it emits no byte and leaves `validBytes` unchanged. -/
theorem C7_timeout_resets (s : State) :
    Idle (Timer_A s) ∧ FallingEdgeSelected (Timer_A s) ∧ ¬ TimeoutEnabled (Timer_A s) ∧
    (Timer_A s).shown = s.shown ∧ (Timer_A s).validBytes = s.validBytes := by
  refine ⟨⟨rfl, rfl⟩, ?_, ?_, rfl, rfl⟩
  · exact reset_falling _
  · unfold TimeoutEnabled
    have : (Timer_A s).TA0CCTL0 = bic16 s.TA0CCTL0 CCIE := rfl
    rw [this, reset_ccie]
    simp

/-- C8: from a state with the decoder idle and `validBytes = 0` (such as power-on),
with one iteration of the main loop after every edge: valid frames for the bytes
0, 1, 2, ..., 254 followed by a valid frame for 255 emit those bytes and then display
the error count 0, leaving `validBytes = 0`; the same with the byte 2 missing
(0, 1, 3, ..., 254, then 255) displays the error count 1. -/
theorem C8_selftest_error_count (s : State) (fs gs : List (List Nat)) (f g : List Nat)
    (hbc : s.bitCounter = 0) (hrx : s.rxData = 0) (hv : s.validBytes = 0)
    (hfs : List.Forall₂ IsFrameOf (List.range 255) fs) (hf : IsFrameOf 255 f)
    (hgs : List.Forall₂ IsFrameOf (0 :: 1 :: List.range' 3 252) gs)
    (hg : IsFrameOf 255 g) :
    ((edgesPolled (fs.flatten ++ f) s).shown = s.shown ++ List.range 255 ++ [0] ∧
      (edgesPolled (fs.flatten ++ f) s).validBytes = 0) ∧
    ((edgesPolled (gs.flatten ++ g) s).shown
        = s.shown ++ (0 :: 1 :: List.range' 3 252) ++ [1] ∧
      (edgesPolled (gs.flatten ++ g) s).validBytes = 0) := by
  obtain ⟨t0, ts, ds, tstop, rfl, hts, hds⟩ := hf
  obtain ⟨u0, us, es, ustop, rfl, hus, hes⟩ := hg
  constructor
  · obtain ⟨a1, a2, a3, a4⟩ := frames_polled hfs s
      (fun b hb => List.mem_range.1 hb) hbc hrx (by omega) (by rw [hv]; simp)
    obtain ⟨_, _, b3, b4⟩ := sentinel_polled t0 ts tstop ds _ a1 a2 hts hds
    rw [edgesPolled_append]
    refine ⟨?_, b3⟩
    rw [b4, a4, a3, hv]
    simp
  · obtain ⟨a1, a2, a3, a4⟩ := frames_polled hgs s
      (fun b hb => by
        simp only [List.mem_cons, List.mem_range'_1] at hb
        omega)
      hbc hrx (by omega) (by rw [hv]; simp)
    obtain ⟨_, _, b3, b4⟩ := sentinel_polled u0 us ustop es _ a1 a2 hus hes
    rw [edgesPolled_append]
    refine ⟨?_, b3⟩
    rw [b4, a4, a3, hv]
    simp

/-- Witness for C8: nominal frames received from the power-on state. -/
theorem C8_selftest_error_count_witness :
    (powerOn.bitCounter = 0 ∧ powerOn.rxData = 0 ∧ powerOn.validBytes = 0) ∧
    (edgesPolled (((List.range 255).map nominalFrame).flatten ++ nominalFrame 255)
      powerOn).validBytes = 0 :=
  ⟨⟨rfl, rfl, rfl⟩,
   (C8_selftest_error_count powerOn ((List.range 255).map nominalFrame)
      ((0 :: 1 :: List.range' 3 252).map nominalFrame) (nominalFrame 255)
      (nominalFrame 255) rfl rfl rfl (nominal_frames _) (nominal_isFrameOf 255)
      (nominal_frames _) (nominal_isFrameOf 255)).1.2⟩

/-- C9 fails on the code: the bytes 1, 0, 2, 3, ..., 254 (the first two swapped), each
validly framed and received from power-on before the sentinel 255, are not the
sequence 0, 1, 2, ..., 254, yet the error count displayed when 255 arrives is 0. -/
theorem C9_out_of_sequence_not_counted :
    (1 :: 0 :: List.range' 2 253) ≠ List.range 255 ∧
    (edgesPolled (((1 :: 0 :: List.range' 2 253).map nominalFrame).flatten
        ++ nominalFrame 255) powerOn).shown
      = (1 :: 0 :: List.range' 2 253) ++ [0] := by
  refine ⟨by decide, ?_⟩
  have hp : powerOn.shown = [] := rfl
  have hpv : powerOn.validBytes = 0 := rfl
  obtain ⟨a1, a2, a3, a4⟩ := frames_polled (nominal_frames (1 :: 0 :: List.range' 2 253))
    powerOn
    (fun b hb => by
      simp only [List.mem_cons, List.mem_range'_1] at hb
      omega)
    rfl rfl (by rw [hpv]) (by rw [hpv]; simp)
  obtain ⟨_, _, _, b4⟩ := sentinel_polled 0 1872
    2496 ((bitsLSB 255).map (fun bit => if bit then 1872 else 1248)) _ a1 a2
    (by decide) (by decide)
  rw [edgesPolled_append]
  have hn : nominalFrame 255
      = frame 0 1872 ((bitsLSB 255).map (fun bit => if bit then 1872 else 1248)) 2496 := rfl
  rw [hn, b4, a4, a3, hp, hpv]
  simp

/-! ## Binary counter: LED display -/

namespace Binary_Output

theorem counter_showByteBody_set (x : Nat) (s : State) : ∀ i, i < 8 →
    ledLines (showByteBody i x s) = (ledLines s).set i (x.testBit 0) := by
  intro i hi
  by_cases hx : x.testBit 0 = true
  · have hx' : x % 2 = 1 := by simpa [Nat.testBit_zero] using hx
    interval_cases i <;>
      simp +decide [showByteBody, hx', hx, ledLines, LEDpinMap, bis8, bic8, bnot16,
        BIT0, BIT1, BIT2, BIT3, BIT4, BIT5, testBit_mod256, Nat.testBit_lor]
  · have hx' : ¬ (x % 2 = 1) := by simpa [Nat.testBit_zero] using hx
    interval_cases i <;>
      simp +decide [showByteBody, hx', hx, ledLines, LEDpinMap, bis8, bic8, bnot16,
        BIT0, BIT1, BIT2, BIT3, BIT4, BIT5, testBit_mod256, Nat.testBit_land]

theorem counter_showByteBody_lines (x : Nat) (s : State) (i : Nat) (hi : i < 8) (j : Nat) :
    (ledLines (showByteBody i x s)).getD j false
      = if j = i then x.testBit 0 else (ledLines s).getD j false := by
  rw [counter_showByteBody_set x s i hi, List.getD_eq_getElem?_getD, List.getD_eq_getElem?_getD,
    List.getElem?_set]
  have hl : (ledLines s).length = 8 := rfl
  by_cases h : i = j
  · subst h
    simp [hl, hi]
  · have h' : ¬ j = i := fun e => h e.symm
    simp [h, h']

theorem counter_showByteLoop_lines (fuel : Nat) : ∀ (i x : Nat) (s : State), i + fuel = 8 →
    ∀ j, j < 8 → (ledLines (showByteLoop fuel i x s)).getD j false
      = if j < i then (ledLines s).getD j false else x.testBit (j - i) := by
  induction fuel with
  | zero =>
    intro i x s hi j hj
    have : j < i := by omega
    simp [showByteLoop, this]
  | succ n ih =>
    intro i x s hi j hj
    have hi8 : i < 8 := by omega
    rw [showByteLoop, if_pos hi8, ih (i + 1) _ _ (by omega) j hj,
      counter_showByteBody_lines x s i hi8 j]
    by_cases h1 : j < i
    · have h2 : j < i + 1 := by omega
      have h3 : j ≠ i := by omega
      simp [h1, h2, h3]
    · by_cases h2 : j = i
      · subst h2
        simp
      · have h3 : ¬ j < i + 1 := by omega
        have h4 : j - i = (j - (i + 1)) + 1 := by omega
        rw [if_neg h3, if_neg h1, h4, testBit_shift_byte _ _ (by omega)]

theorem counter_showByte_lines (x : Nat) (hx : x < 256) (s : State) :
    ledLines (showByte x s) = bitsLSB x := by
  have hm : x % 256 = x := Nat.mod_eq_of_lt hx
  have key : ∀ j, j < 8 → (ledLines (showByte x s)).getD j false = x.testBit j := by
    intro j hj
    have h := counter_showByteLoop_lines 8 0 (x % 256) { s with shown := s.shown ++ [x % 256] }
      rfl j hj
    rw [if_neg (Nat.not_lt_zero j), Nat.sub_zero, hm] at h
    rw [showByte, hm]
    exact h
  have e0 : (showByte x s).P1OUT.testBit 0 = x.testBit 0 := key 0 (by omega)
  have e1 : (showByte x s).P1OUT.testBit 1 = x.testBit 1 := key 1 (by omega)
  have e2 : (showByte x s).P1OUT.testBit 2 = x.testBit 2 := key 2 (by omega)
  have e3 : (showByte x s).P1OUT.testBit 3 = x.testBit 3 := key 3 (by omega)
  have e4 : (showByte x s).P1OUT.testBit 4 = x.testBit 4 := key 4 (by omega)
  have e5 : (showByte x s).P1OUT.testBit 5 = x.testBit 5 := key 5 (by omega)
  have e6 : (showByte x s).P2OUT.testBit 0 = x.testBit 6 := key 6 (by omega)
  have e7 : (showByte x s).P2OUT.testBit 1 = x.testBit 7 := key 7 (by omega)
  rw [bitsLSB_eq, ledLines, e0, e1, e2, e3, e4, e5, e6, e7]

end Binary_Output

/-- C10: for both programs, for every byte `x` and every prior content of `P1OUT` and
`P2OUT`, after `showByte(x)` line `i` of the eight LED lines in `LEDpinMap` order (IR
program: P1.4, P1.5, P2.0..P2.5; counter program: P1.0..P1.5, P2.0, P2.1) is high
exactly when bit `i` of `x` is 1, and the lines reassembled least significant bit
first give back `x`. -/
theorem C10_display_round_trip (x : Nat) (hx : x < 256) :
    (∀ s : IR_Receiver.State,
      IR_Receiver.ledLines (IR_Receiver.showByte x s) = bitsLSB x ∧
      assembleLSB (IR_Receiver.ledLines (IR_Receiver.showByte x s)) = x) ∧
    (∀ s : Binary_Output.State,
      Binary_Output.ledLines (Binary_Output.showByte x s) = bitsLSB x ∧
      assembleLSB (Binary_Output.ledLines (Binary_Output.showByte x s)) = x) := by
  constructor
  · intro s
    have h := IR_Receiver.showByte_lines x hx s
    exact ⟨h, by rw [h, assembleLSB_bits x hx]⟩
  · intro s
    have h := Binary_Output.counter_showByte_lines x hx s
    exact ⟨h, by rw [h, assembleLSB_bits x hx]⟩

/-- Witness for C10: the byte 0xA5 shown by the IR program over all-ones ports. -/
theorem C10_display_round_trip_witness :
    assembleLSB (IR_Receiver.ledLines
      (IR_Receiver.showByte 0xA5 { powerOn with P1OUT := 0xFF, P2OUT := 0xFF })) = 0xA5 :=
  ((C10_display_round_trip 0xA5 (by decide)).1
    { powerOn with P1OUT := 0xFF, P2OUT := 0xFF }).2

end Infrared

/-! # Reachable states, invariants and the self-test iteration -/

namespace Infrared

theorem testBit_of_mod_pow_eq_zero {x k j : Nat} (h : x % 2 ^ k = 0) (hj : j < k) :
    x.testBit j = false := by
  have := Nat.testBit_mod_two_pow x k j
  rw [h, Nat.zero_testBit] at this
  simpa [hj] using this.symm

namespace IR_Receiver

/-! ## IR receiver: one event at a time -/

theorem edge_mod (e : Nat) (s : State) : edge (e % 65536) s = edge e s := by
  simp [edge]

theorem bic8_pin (x : Nat) : bic8 x IR_DETECTOR_PIN &&& IR_DETECTOR_PIN = 0 := by
  apply Nat.eq_of_testBit_eq
  intro i
  show (((x &&& ((2 ^ 16 - 1) ^^^ 2 ^ 7)) % 2 ^ 8) &&& 2 ^ 7).testBit i = Nat.testBit 0 i
  rw [Nat.testBit_land, Nat.testBit_mod_two_pow, Nat.testBit_land, Nat.testBit_xor,
    Nat.testBit_two_pow_sub_one, Nat.testBit_two_pow, Nat.zero_testBit]
  by_cases h : 7 = i
  · subst h; simp
  · simp [h]

/-- What one edge does to the decoder and mode registers, by entry `bitCounter`. -/
theorem edge_kinds (e : Nat) (s : State) (h10 : s.bitCounter ≤ 10) :
    (s.bitCounter = 0 ∧ (edge e s).bitCounter = 1 ∧ (edge e s).rxData = s.rxData ∧
      (edge e s).validBytes = s.validBytes ∧ (edge e s).shown = s.shown ∧
      (edge e s).P1IES = bic8 s.P1IES IR_DETECTOR_PIN ∧ (edge e s).TA0CCTL0 = CCIE) ∨
    (1 ≤ s.bitCounter ∧ s.bitCounter ≤ 9 ∧ (edge e s).bitCounter = s.bitCounter + 1 ∧
      ((s.bitCounter = 1 ∧ (edge e s).rxData = s.rxData) ∨
        (2 ≤ s.bitCounter ∧ ∃ bit, (edge e s).rxData = shiftIn s.rxData bit)) ∧
      (edge e s).validBytes = s.validBytes ∧ (edge e s).shown = s.shown ∧
      (edge e s).P1IES = s.P1IES ∧ (edge e s).TA0CCTL0 = s.TA0CCTL0) ∨
    (1 ≤ s.bitCounter ∧ s.bitCounter ≤ 9 ∧ (edge e s).bitCounter = 0 ∧
      (edge e s).rxData = 0 ∧
      (edge e s).validBytes = s.validBytes ∧ (edge e s).shown = s.shown ∧
      (edge e s).P1IES = bis8 s.P1IES IR_DETECTOR_PIN ∧
      (edge e s).TA0CCTL0 = bic16 s.TA0CCTL0 CCIE) ∨
    (s.bitCounter = 10 ∧ (edge e s).bitCounter = 0 ∧ (edge e s).rxData = 0 ∧
      (edge e s).validBytes = wrapInt16 (s.validBytes + 1) ∧
      (edge e s).shown = s.shown ++ [s.rxData % 256] ∧
      (edge e s).P1IES = bis8 s.P1IES IR_DETECTOR_PIN ∧
      (edge e s).TA0CCTL0 = bic16 s.TA0CCTL0 CCIE) := by
  by_cases c0 : s.bitCounter = 0
  · left
    simp [edge, Port_1, flag_pending, c0, restartTimer]
  · by_cases c10 : s.bitCounter = 10
    · right; right; right
      simp [edge, Port_1, flag_pending, c10, reset]
    · have hb : (s.bitCounter + 1) % 65536 = s.bitCounter + 1 := by omega
      by_cases c1 : s.bitCounter = 1
      · by_cases hs : e % 65536 < Tsmin ∨ e % 65536 > Tsmax
        · right; right; left
          simp [edge, Port_1, flag_pending, c1, reset, hs]
        · right; left
          simp [edge, Port_1, flag_pending, c1, restartTimer, hs]
      · by_cases hone : e % 65536 > T1min ∧ e % 65536 < T1max
        · right; left
          refine ⟨by omega, by omega, ?_, Or.inr ⟨by omega, true, ?_⟩, ?_, ?_, ?_, ?_⟩ <;>
            simp [edge, Port_1, flag_pending, c0, c1, c10, hb, restartTimer, hone, shiftIn]
        · by_cases hz : e % 65536 < T0min
          · right; right; left
            refine ⟨by omega, by omega, ?_, ?_, ?_, ?_, ?_, ?_⟩ <;>
              simp [edge, Port_1, flag_pending, c0, c1, c10, hb, reset, hone, hz]
          · right; left
            refine ⟨by omega, by omega, ?_, Or.inr ⟨by omega, false, ?_⟩, ?_, ?_, ?_, ?_⟩ <;>
              simp [edge, Port_1, flag_pending, c0, c1, c10, hb, restartTimer, hone, hz,
                shiftIn]

theorem run_nil (s : State) : run [] s = s := rfl

theorem run_append (evs ews : List Event) (s : State) :
    run (evs ++ ews) s = run ews (run evs s) := by
  simp [run, List.foldl_append]

/-- Invariance principle for event sequences. -/
theorem run_invariant (P : State → Prop) (hstep : ∀ ev s, P s → P (step ev s)) :
    ∀ (evs : List Event) (s : State), P s → P (run evs s) := by
  intro evs
  induction evs with
  | nil => intro s h; exact h
  | cons ev evs ih => intro s h; exact ih (step ev s) (hstep ev s h)

theorem run_edges (es : List Nat) : ∀ s : State, run (es.map Event.edge) s = edges es s := by
  induction es with
  | nil => intro s; rfl
  | cons e es ih => intro s; exact ih (edge e s)

theorem run_edgesPolled (es : List Nat) : ∀ s : State,
    run (es.flatMap (fun e => [Event.edge e, Event.poll])) s = edgesPolled es s := by
  induction es with
  | nil => intro s; rfl
  | cons e es ih => intro s; exact ih (mainLoop (edge e s))

set_option maxRecDepth 100000 in
theorem shiftIn_low : ∀ k, k < 8 → ∀ rx, rx < 256 → ∀ bit : Bool,
    rx % 2 ^ (8 - k) = 0 → shiftIn rx bit < 256 ∧ shiftIn rx bit % 2 ^ (7 - k) = 0 := by
  decide

theorem ccie_enabled : CCIE &&& CCIE ≠ 0 := by decide

theorem mainLoop_kinds (s : State) :
    (s.rxData ≠ 255 ∧ mainLoop s = s) ∨
    (s.rxData = 255 ∧ (mainLoop s).bitCounter = 0 ∧ (mainLoop s).rxData = 0 ∧
      (mainLoop s).validBytes = 0 ∧
      (mainLoop s).shown = s.shown ++ [(255 - (s.validBytes % 256).toNat) % 256] ∧
      (mainLoop s).P1IES = bis8 s.P1IES IR_DETECTOR_PIN ∧
      (mainLoop s).TA0CCTL0 = bic16 s.TA0CCTL0 CCIE) := by
  by_cases h : s.rxData = 255
  · right
    simp [mainLoop, h, reset]
  · left
    exact ⟨h, mainLoop_skip s h⟩

/-- The decoder part of the invariant: `bitCounter ≤ 10`, `rxData` is a byte whose low
`10 - bitCounter` bits are clear. -/
theorem step_acc (ev : Event) (s : State)
    (h : s.bitCounter ≤ 10 ∧ s.rxData < 256 ∧ s.rxData % 2 ^ (10 - s.bitCounter) = 0) :
    (step ev s).bitCounter ≤ 10 ∧ (step ev s).rxData < 256 ∧
      (step ev s).rxData % 2 ^ (10 - (step ev s).bitCounter) = 0 := by
  obtain ⟨h10, h256, hlow⟩ := h
  cases ev with
  | edge e =>
    show (edge e s).bitCounter ≤ 10 ∧ (edge e s).rxData < 256 ∧
      (edge e s).rxData % 2 ^ (10 - (edge e s).bitCounter) = 0
    rcases edge_kinds e s h10 with ⟨c, b1, b2, _⟩ | ⟨c1, c9, b1, b2, _⟩ | ⟨_, _, b1, b2, _⟩ |
      ⟨_, b1, b2, _⟩
    · rw [c] at hlow
      have : s.rxData = 0 := by
        have : s.rxData % 2 ^ (10 - 0) = s.rxData := Nat.mod_eq_of_lt (by norm_num; omega)
        omega
      rw [b1, b2, this]; simp
    · rcases b2 with ⟨c, b2⟩ | ⟨c2, bit, b2⟩
      · rw [c] at hlow
        have : s.rxData = 0 := by
          have : s.rxData % 2 ^ (10 - 1) = s.rxData := Nat.mod_eq_of_lt (by norm_num; omega)
          omega
        rw [b1, b2, this]; simp; omega
      · rw [b1, b2]
        have key := shiftIn_low (s.bitCounter - 2) (by omega) s.rxData h256 bit
          (by rw [show 8 - (s.bitCounter - 2) = 10 - s.bitCounter by omega]; exact hlow)
        refine ⟨by omega, key.1, ?_⟩
        rw [show 10 - (s.bitCounter + 1) = 7 - (s.bitCounter - 2) by omega]
        exact key.2
    · rw [b1, b2]; simp
    · rw [b1, b2]; simp
  | timeout =>
    show (Timer_A s).bitCounter ≤ 10 ∧ (Timer_A s).rxData < 256 ∧
      (Timer_A s).rxData % 2 ^ (10 - (Timer_A s).bitCounter) = 0
    simp [Timer_A, reset]
  | poll =>
    show (mainLoop s).bitCounter ≤ 10 ∧ (mainLoop s).rxData < 256 ∧
      (mainLoop s).rxData % 2 ^ (10 - (mainLoop s).bitCounter) = 0
    rcases mainLoop_kinds s with ⟨_, b⟩ | ⟨_, b1, b2, _⟩
    · rw [b]; exact ⟨h10, h256, hlow⟩
    · rw [b1, b2]; simp

/-- The mode part of the invariant: falling edge selected exactly when `bitCounter = 0`,
timeout interrupt enabled exactly when `bitCounter ≠ 0`. -/
theorem step_mode (ev : Event) (s : State) (h10 : s.bitCounter ≤ 10)
    (h : (FallingEdgeSelected s ↔ s.bitCounter = 0) ∧
      (TimeoutEnabled s ↔ s.bitCounter ≠ 0)) :
    (FallingEdgeSelected (step ev s) ↔ (step ev s).bitCounter = 0) ∧
      (TimeoutEnabled (step ev s) ↔ (step ev s).bitCounter ≠ 0) := by
  have hreset : ∀ t : State, t.bitCounter = 0 →
      t.P1IES = bis8 s.P1IES IR_DETECTOR_PIN → t.TA0CCTL0 = bic16 s.TA0CCTL0 CCIE →
      (FallingEdgeSelected t ↔ t.bitCounter = 0) ∧ (TimeoutEnabled t ↔ t.bitCounter ≠ 0) := by
    intro t b1 b2 b3
    unfold FallingEdgeSelected TimeoutEnabled
    rw [b1, b2, b3, reset_ccie]
    exact ⟨⟨fun _ => rfl, fun _ => reset_falling _⟩, ⟨fun c => absurd rfl c, fun c => absurd rfl c⟩⟩
  cases ev with
  | edge e =>
    show (FallingEdgeSelected (edge e s) ↔ (edge e s).bitCounter = 0) ∧
      (TimeoutEnabled (edge e s) ↔ (edge e s).bitCounter ≠ 0)
    rcases edge_kinds e s h10 with ⟨_, b1, _, _, _, b2, b3⟩ | ⟨c1, _, b1, _, _, _, b2, b3⟩ |
      ⟨_, _, b1, _, _, _, b2, b3⟩ | ⟨_, b1, _, _, _, b2, b3⟩
    · unfold FallingEdgeSelected TimeoutEnabled
      rw [b1, b2, b3, bic8_pin]
      exact ⟨⟨fun c => absurd rfl c, fun c => absurd c (by omega)⟩,
        ⟨fun _ => by omega, fun _ => ccie_enabled⟩⟩
    · unfold FallingEdgeSelected TimeoutEnabled at *
      rw [b1, b2, b3]
      constructor
      · constructor
        · intro c; have := h.1.1 c; omega
        · intro c; omega
      · constructor
        · intro _; omega
        · intro _; exact h.2.2 (by omega)
    · exact hreset _ b1 b2 b3
    · exact hreset _ b1 b2 b3
  | timeout => exact hreset _ rfl rfl rfl
  | poll =>
    show (FallingEdgeSelected (mainLoop s) ↔ (mainLoop s).bitCounter = 0) ∧
      (TimeoutEnabled (mainLoop s) ↔ (mainLoop s).bitCounter ≠ 0)
    rcases mainLoop_kinds s with ⟨_, b⟩ | ⟨_, b1, _, _, _, b2, b3⟩
    · rw [b]; exact h
    · exact hreset _ b1 b2 b3

/-- The counter part of the invariant, with `n0` the number of `showByte` calls logged
at the start: `validBytes` is a 16-bit `int`, at most the number of calls made since,
and non-negative while that number is at most 32767. -/
theorem step_valid (n0 : Nat) (ev : Event) (s : State) (h10 : s.bitCounter ≤ 10)
    (h : -32768 ≤ s.validBytes ∧ s.validBytes ≤ 32767 ∧ n0 ≤ s.shown.length ∧
      s.validBytes ≤ (s.shown.length : Int) - n0 ∧
      ((s.shown.length : Int) - n0 ≤ 32767 → 0 ≤ s.validBytes)) :
    -32768 ≤ (step ev s).validBytes ∧ (step ev s).validBytes ≤ 32767 ∧
      n0 ≤ (step ev s).shown.length ∧
      (step ev s).validBytes ≤ ((step ev s).shown.length : Int) - n0 ∧
      ((((step ev s).shown.length : Int) - n0 ≤ 32767) → 0 ≤ (step ev s).validBytes) := by
  obtain ⟨v0, v1, hn, hle, hpos⟩ := h
  cases ev with
  | edge e =>
    show -32768 ≤ (edge e s).validBytes ∧ (edge e s).validBytes ≤ 32767 ∧
      n0 ≤ (edge e s).shown.length ∧
      (edge e s).validBytes ≤ ((edge e s).shown.length : Int) - n0 ∧
      ((((edge e s).shown.length : Int) - n0 ≤ 32767) → 0 ≤ (edge e s).validBytes)
    rcases edge_kinds e s h10 with ⟨_, _, _, b1, b2, _⟩ | ⟨_, _, _, _, b1, b2, _⟩ |
      ⟨_, _, _, _, b1, b2, _⟩ | ⟨_, _, _, b1, b2, _⟩
    · rw [b1, b2]; exact ⟨v0, v1, hn, hle, hpos⟩
    · rw [b1, b2]; exact ⟨v0, v1, hn, hle, hpos⟩
    · rw [b1, b2]; exact ⟨v0, v1, hn, hle, hpos⟩
    · rw [b1, b2]
      simp only [List.length_append, List.length_singleton, Nat.cast_add, Nat.cast_one]
      unfold wrapInt16
      omega
  | timeout => exact ⟨v0, v1, hn, hle, hpos⟩
  | poll =>
    show -32768 ≤ (mainLoop s).validBytes ∧ (mainLoop s).validBytes ≤ 32767 ∧
      n0 ≤ (mainLoop s).shown.length ∧
      (mainLoop s).validBytes ≤ ((mainLoop s).shown.length : Int) - n0 ∧
      ((((mainLoop s).shown.length : Int) - n0 ≤ 32767) → 0 ≤ (mainLoop s).validBytes)
    rcases mainLoop_kinds s with ⟨_, b⟩ | ⟨_, _, _, b1, b2, _⟩
    · rw [b]; exact ⟨v0, v1, hn, hle, hpos⟩
    · rw [b1, b2]
      simp only [List.length_append, List.length_singleton, Nat.cast_add, Nat.cast_one]
      omega

theorem run_bitCounter_le (evs : List Event) (s : State) (h : s.bitCounter ≤ 10) :
    (run evs s).bitCounter ≤ 10 := by
  refine run_invariant (fun t => t.bitCounter ≤ 10) ?_ evs s h
  intro ev t ht
  cases ev with
  | edge e =>
    show (edge e t).bitCounter ≤ 10
    rcases edge_kinds e t ht with ⟨_, b, _⟩ | ⟨_, _, b, _⟩ | ⟨_, _, b, _⟩ | ⟨_, b, _⟩ <;>
      rw [b] <;> omega
  | timeout => exact Nat.zero_le _
  | poll =>
    show (mainLoop t).bitCounter ≤ 10
    rcases mainLoop_kinds t with ⟨_, b⟩ | ⟨_, b, _⟩
    · rw [b]; exact ht
    · rw [b]; omega

end IR_Receiver

open IR_Receiver

/-! ## Claims about pulses outside the bands and about reachable states -/

/-- C11, as stated, fails: at the first data position after power-on, an elapsed time
of 1600 ticks (between the ZERO band and the ONE band) and one of 3000 ticks (above
both bands) do not abort the frame: the handler advances to `bitCounter = 3`. -/
theorem C11_counterexample :
    (edge 1872 (edge 0 powerOn)).bitCounter = 2 ∧
    (edge 1600 (edge 1872 (edge 0 powerOn))).bitCounter = 3 ∧
    (edge 3000 (edge 1872 (edge 0 powerOn))).bitCounter = 3 := by
  decide

/-- C11, amended: at every data position (`bitCounter` in 2..9), every elapsed time
below the ZERO band (`e < T0min = 800`) aborts the frame at once: the accumulator is
discarded and the decoder is back to idle (`bitCounter = 0`, `rxData = 0`, falling
edge selected, timeout interrupt disabled), with nothing emitted and `validBytes`
unchanged. -/
theorem C11_short_pulse_aborts (s : State) (e : Nat) (h2 : 2 ≤ s.bitCounter)
    (h9 : s.bitCounter ≤ 9) (he : e < 800) :
    Idle (edge e s) ∧ FallingEdgeSelected (edge e s) ∧ ¬ TimeoutEnabled (edge e s) ∧
    (edge e s).shown = s.shown ∧ (edge e s).validBytes = s.validBytes := by
  obtain ⟨a1, a2, a3, a4⟩ := (edge_data e s h2 h9 (by omega)).2.1 he
  refine ⟨⟨a1, a2⟩, ?_, ?_, a4, a3⟩
  · unfold FallingEdgeSelected
    rcases edge_kinds e s (by omega) with ⟨c, _⟩ | ⟨_, _, b, _⟩ | ⟨_, _, _, _, _, _, b, _⟩ |
      ⟨c, _⟩
    · omega
    · omega
    · rw [b]; exact reset_falling _
    · omega
  · unfold TimeoutEnabled
    rcases edge_kinds e s (by omega) with ⟨c, _⟩ | ⟨_, _, b, _⟩ | ⟨_, _, _, _, _, _, _, b⟩ |
      ⟨c, _⟩
    · omega
    · omega
    · rw [b, reset_ccie]; simp
    · omega

/-- Witness for the amended C11: a 100-tick glitch at the first data position. -/
theorem C11_short_pulse_aborts_witness :
    (edge 1872 (edge 0 powerOn)).bitCounter = 2 ∧
    Idle (edge 100 (edge 1872 (edge 0 powerOn))) :=
  ⟨rfl, (C11_short_pulse_aborts (edge 1872 (edge 0 powerOn)) 100
    (by decide) (by decide) (by decide)).1⟩

/-- C12: in every state reached from a state with `bitCounter = 0` (such as power-on)
by any sequence of edge notifications with arbitrary elapsed times, timer timeouts and
main-loop iterations, `0 ≤ bitCounter ≤ 10`. -/
theorem C12_bitCounter_range (s0 : State) (h0 : s0.bitCounter = 0) (evs : List Event) :
    0 ≤ (run evs s0).bitCounter ∧ (run evs s0).bitCounter ≤ 10 :=
  ⟨Nat.zero_le _, run_bitCounter_le evs s0 (by omega)⟩

/-- Witness for C12: two edges, a timeout and a poll after power-on. -/
theorem C12_bitCounter_range_witness :
    powerOn.bitCounter = 0 ∧
    (run [Event.edge 0, Event.edge 1872, Event.timeout, Event.poll] powerOn).bitCounter
      ≤ 10 :=
  ⟨rfl, (C12_bitCounter_range powerOn rfl
    [Event.edge 0, Event.edge 1872, Event.timeout, Event.poll]).2⟩

/-- C13, as stated, fails: 256 valid frames for the byte 0, received from power-on with
the main loop polled after every edge, leave `validBytes = 256`. -/
theorem C13_counterexample :
    (run ((((List.replicate 256 0).map nominalFrame).flatten).flatMap
      (fun e => [Event.edge e, Event.poll])) powerOn).validBytes = 256 := by
  rw [run_edgesPolled]
  have hpv : powerOn.validBytes = 0 := rfl
  obtain ⟨_, _, a3, _⟩ := frames_polled (nominal_frames (List.replicate 256 0)) powerOn
    (fun b hb => by rw [List.eq_of_mem_replicate hb]; omega)
    rfl rfl (by rw [hpv]) (by rw [hpv, List.length_replicate]; norm_num)
  rw [a3, hpv, List.length_replicate]
  norm_num

/-- C13, amended: in every state reached from a state with `validBytes = 0` (such as
power-on) by any sequence of edge notifications, timer timeouts and main-loop
iterations, `validBytes` is within the 16-bit `int` range, it is at most the number of
`showByte` calls made since the start, and it is non-negative as long as that number
is at most 32767. -/
theorem C13_validBytes_range (s0 : State) (hb : s0.bitCounter = 0)
    (hv : s0.validBytes = 0) (evs : List Event) :
    -32768 ≤ (run evs s0).validBytes ∧ (run evs s0).validBytes ≤ 32767 ∧
    s0.shown.length ≤ (run evs s0).shown.length ∧
    (run evs s0).validBytes ≤ ((run evs s0).shown.length : Int) - s0.shown.length ∧
    ((((run evs s0).shown.length : Int) - s0.shown.length ≤ 32767) →
      0 ≤ (run evs s0).validBytes) := by
  have h := run_invariant
    (fun t => t.bitCounter ≤ 10 ∧ (-32768 ≤ t.validBytes ∧ t.validBytes ≤ 32767 ∧
      s0.shown.length ≤ t.shown.length ∧
      t.validBytes ≤ (t.shown.length : Int) - s0.shown.length ∧
      ((t.shown.length : Int) - s0.shown.length ≤ 32767 → 0 ≤ t.validBytes)))
    (fun ev t ht => ⟨run_bitCounter_le [ev] t ht.1, step_valid s0.shown.length ev t ht.1 ht.2⟩)
    evs s0 ⟨by omega, by omega, by omega, le_refl _, by omega, fun _ => by omega⟩
  exact h.2

/-- Witness for the amended C13: one complete frame after power-on. -/
theorem C13_validBytes_range_witness :
    (powerOn.bitCounter = 0 ∧ powerOn.validBytes = 0) ∧
    (run ((nominalFrame 0).map Event.edge) powerOn).validBytes ≤ 32767 :=
  ⟨⟨rfl, rfl⟩, (C13_validBytes_range powerOn rfl rfl
    ((nominalFrame 0).map Event.edge)).2.1⟩

namespace IR_Receiver

theorem errorCount_eq (v : Int) :
    (255 - (v % 256).toNat) % 256 = ((255 - v) % 256).toNat := by
  omega

theorem reset_ledLines (s : State) : ledLines (reset s) = ledLines s := rfl

end IR_Receiver
open IR_Receiver

/-- C14: one iteration of the self-test loop.  With `rxData = 255` and any value `v`
of `validBytes` it calls `showByte` with the byte `(255 - v) mod 256` (which then
stands on the LED lines), sets `validBytes` to 0 and resets the decoder to idle
(`bitCounter = 0`, `rxData = 0`, falling edge selected, timeout interrupt disabled);
with `rxData ≠ 255` it changes nothing. -/
theorem C14_selftest_iteration (s : State) :
    (s.rxData = 255 →
      (mainLoop s).shown = s.shown ++ [((255 - s.validBytes) % 256).toNat] ∧
      ledLines (mainLoop s) = bitsLSB ((255 - s.validBytes) % 256).toNat ∧
      (mainLoop s).validBytes = 0 ∧ Idle (mainLoop s) ∧
      FallingEdgeSelected (mainLoop s) ∧ ¬ TimeoutEnabled (mainLoop s)) ∧
    (s.rxData ≠ 255 → mainLoop s = s) := by
  refine ⟨fun h => ?_, mainLoop_skip s⟩
  rcases mainLoop_kinds s with ⟨c, _⟩ | ⟨_, b1, b2, b3, b4, b5, b6⟩
  · exact absurd h c
  · have hlt : ((255 - s.validBytes) % 256).toNat < 256 := by omega
    refine ⟨by rw [b4, errorCount_eq], ?_, b3, ⟨b1, b2⟩, ?_, ?_⟩
    · have hm : mainLoop s = reset
          { showByte (255 - (s.validBytes % 256).toNat) s with validBytes := 0 } := by
        simp [mainLoop, h]
      have hsub : 255 - (s.validBytes % 256).toNat = ((255 - s.validBytes) % 256).toNat := by
        omega
      rw [hm, reset_ledLines]
      show ledLines (showByte (255 - (s.validBytes % 256).toNat) s) = _
      rw [hsub]
      exact showByte_lines _ hlt s
    · unfold FallingEdgeSelected
      rw [b5]; exact reset_falling _
    · unfold TimeoutEnabled
      rw [b6, reset_ccie]; simp

/-- Witness for C14: the main loop polled when the eighth data edge of a frame for
255 has just been handled, the first frame after power-on. -/
theorem C14_selftest_iteration_witness :
    (edges ((nominalFrame 255).take 10) powerOn).rxData = 255 ∧
    (mainLoop (edges ((nominalFrame 255).take 10) powerOn)).validBytes = 0 :=
  ⟨by decide,
   ((C14_selftest_iteration (edges ((nominalFrame 255).take 10) powerOn)).1
      (by decide)).2.2.1⟩

/-- C17: in every state reached from the idle decoder (such as power-on) by any
sequence of edge notifications with arbitrary elapsed times, timer timeouts and
main-loop iterations: `rxData = 0` whenever `bitCounter ≤ 1`; for
`2 ≤ bitCounter ≤ 10` the low `10 - bitCounter` bits of `rxData` are 0; hence
`rxData = 255` only while `bitCounter = 10`; and the edge that completes a frame (the
one handled at `bitCounter = 10`) leaves `rxData = 0`. -/
theorem C17_accumulator_invariant (s0 : State) (h0 : Idle s0) (evs : List Event) :
    ((run evs s0).bitCounter ≤ 1 → (run evs s0).rxData = 0) ∧
    (2 ≤ (run evs s0).bitCounter →
      (run evs s0).bitCounter ≤ 10 ∧
      (run evs s0).rxData % 2 ^ (10 - (run evs s0).bitCounter) = 0 ∧
      ∀ j, j < 10 - (run evs s0).bitCounter → (run evs s0).rxData.testBit j = false) ∧
    ((run evs s0).rxData = 255 → (run evs s0).bitCounter = 10) ∧
    (∀ e, (run evs s0).bitCounter = 10 →
      (step (Event.edge e) (run evs s0)).rxData = 0 ∧
      (step (Event.edge e) (run evs s0)).bitCounter = 0) := by
  obtain ⟨hb, hr⟩ := h0
  obtain ⟨h10, h256, hlow⟩ := run_invariant
    (fun t => t.bitCounter ≤ 10 ∧ t.rxData < 256 ∧ t.rxData % 2 ^ (10 - t.bitCounter) = 0)
    step_acc evs s0 ⟨by omega, by omega, by rw [hr]; simp⟩
  have hsmall : ∀ k, 9 ≤ k → (run evs s0).rxData % 2 ^ k = 0 → (run evs s0).rxData = 0 := by
    intro k hk hz
    have hp : 2 ^ 9 ≤ 2 ^ k := Nat.pow_le_pow_right (by omega) hk
    have : (run evs s0).rxData % 2 ^ k = (run evs s0).rxData :=
      Nat.mod_eq_of_lt (by norm_num at hp; omega)
    omega
  refine ⟨fun h1 => hsmall _ (by omega) hlow, fun _ => ⟨h10, hlow, ?_⟩, fun h255 => ?_,
    fun e hc => ?_⟩
  · intro j hj
    exact testBit_of_mod_pow_eq_zero hlow hj
  · by_contra hne
    have hlt : (run evs s0).bitCounter ≤ 9 := by omega
    have hdvd : 2 ∣ 2 ^ (10 - (run evs s0).bitCounter) :=
      dvd_pow_self 2 (by omega)
    have : (run evs s0).rxData % 2 = 0 := by
      have h1 := Nat.mod_mod_of_dvd (run evs s0).rxData hdvd
      rw [hlow] at h1
      omega
    omega
  · obtain ⟨a1, a2, _, _⟩ := edge_stop e _ hc
    exact ⟨a2, a1⟩

/-- Witness for C17: the state after power-on, a first edge, a start edge and two ONE
bits has `bitCounter = 4` and the low six bits of `rxData` clear. -/
theorem C17_accumulator_invariant_witness :
    Idle powerOn ∧
    (run [Event.edge 0, Event.edge 1872, Event.edge 1872, Event.edge 1872]
      powerOn).rxData % 2 ^ (10 - (run [Event.edge 0, Event.edge 1872, Event.edge 1872,
        Event.edge 1872] powerOn).bitCounter) = 0 :=
  ⟨⟨rfl, rfl⟩,
   ((C17_accumulator_invariant powerOn ⟨rfl, rfl⟩
      [Event.edge 0, Event.edge 1872, Event.edge 1872, Event.edge 1872]).2.1
      (by decide)).2.1⟩

/-- C18: in every state reached from an initialised state (falling-edge detection
selected, timer compare interrupt disabled, `bitCounter = 0`) by any sequence of
complete edge-handler, timeout-handler and main-loop steps, falling-edge detection is
selected if and only if `bitCounter = 0`, and the timeout interrupt is enabled if and
only if `bitCounter ≠ 0`. -/
theorem C18_mode_invariant (s0 : State) (hf : FallingEdgeSelected s0)
    (ht : ¬ TimeoutEnabled s0) (hb : s0.bitCounter = 0) (evs : List Event) :
    (FallingEdgeSelected (run evs s0) ↔ (run evs s0).bitCounter = 0) ∧
    (TimeoutEnabled (run evs s0) ↔ (run evs s0).bitCounter ≠ 0) := by
  have h := run_invariant
    (fun t => t.bitCounter ≤ 10 ∧ ((FallingEdgeSelected t ↔ t.bitCounter = 0) ∧
      (TimeoutEnabled t ↔ t.bitCounter ≠ 0)))
    (fun ev t h => ⟨run_bitCounter_le [ev] t h.1, step_mode ev t h.1 h.2⟩)
    evs s0
    ⟨by omega, ⟨fun _ => hb, fun _ => hf⟩, ⟨fun c => absurd c ht, fun c => absurd hb c⟩⟩
  exact h.2

/-- Witness for C18: the power-on state is initialised, and after its first edge the
timeout interrupt is enabled. -/
theorem C18_mode_invariant_witness :
    (FallingEdgeSelected powerOn ∧ ¬ TimeoutEnabled powerOn ∧ powerOn.bitCounter = 0) ∧
    (TimeoutEnabled (run [Event.edge 0] powerOn)
      ↔ (run [Event.edge 0] powerOn).bitCounter ≠ 0) :=
  ⟨⟨by unfold FallingEdgeSelected; decide, by unfold TimeoutEnabled; decide, rfl⟩,
   (C18_mode_invariant powerOn (by unfold FallingEdgeSelected; decide)
      (by unfold TimeoutEnabled; decide) rfl [Event.edge 0]).2⟩

end Infrared

/-! # Statement order in the interrupt handlers -/

namespace Infrared

namespace IR_Receiver

/-! ## IR receiver: statement order in the handlers -/

theorem exec_nil (s : State) : exec [] s = s := rfl

theorem exec_cons (p : Stmt) (ps : List Stmt) (s : State) :
    exec (p :: ps) s = exec ps (p s) := rfl

theorem exec_append (ps qs : List Stmt) (s : State) :
    exec (ps ++ qs) s = exec qs (exec ps s) := by
  simp [exec, List.foldl_append]

/-- Statements that leave `P1IE` alone leave it alone when run in sequence. -/
theorem exec_keeps_P1IE : ∀ (ps : List Stmt) (s : State),
    (∀ p ∈ ps, ∀ t, (p t).P1IE = t.P1IE) → (exec ps s).P1IE = s.P1IE := by
  intro ps
  induction ps with
  | nil => intro s _; rfl
  | cons p ps ih =>
    intro s h
    rw [exec_cons, ih (p s) (fun q hq => h q (List.mem_cons_of_mem _ hq)),
      h p (List.mem_cons_self _ _)]

theorem Port_1_body_keeps_P1IE (s : State) :
    ∀ p ∈ Port_1_body s, ∀ t : State, (p t).P1IE = t.P1IE := by
  unfold Port_1_body
  split_ifs <;>
    simp [resetStmts, toggleScope, incBitCounter, clearTimer, upMode]

theorem resetStmts_keep_P1IE : ∀ p ∈ resetStmts, ∀ t : State, (p t).P1IE = t.P1IE := by
  simp [resetStmts]

theorem exec_resetStmts (s : State) : exec resetStmts s = reset s := rfl

theorem exec_Port_1_stmts (s : State) : exec (Port_1_stmts s) s = Port_1 s := by
  unfold Port_1_stmts Port_1
  by_cases hf : s.P1IFG &&& IR_DETECTOR_PIN ≠ 0
  · rw [if_pos hf, if_pos hf, exec_cons, exec_append]
    unfold Port_1_body
    by_cases c0 : s.bitCounter = 0
    · simp [c0, exec, disableEdge, clearFlag, enableEdge, toggleScope, incBitCounter,
        clearTimer, upMode, restartTimer]
    · by_cases c10 : s.bitCounter = 10
      · simp [c10, exec, disableEdge, clearFlag, enableEdge, resetStmts, reset]
      · by_cases c1 : s.bitCounter = 1
        · by_cases hs : s.TA0R < Tsmin ∨ s.TA0R > Tsmax
          · simp [c1, hs, exec, disableEdge, clearFlag, enableEdge, resetStmts, reset]
          · simp [c1, hs, exec, disableEdge, clearFlag, enableEdge, toggleScope,
              incBitCounter, clearTimer, upMode, restartTimer]
        · by_cases hone : s.TA0R > T1min ∧ s.TA0R < T1max
          · simp [c0, c1, c10, hone, exec, disableEdge, clearFlag, enableEdge, toggleScope,
              incBitCounter, clearTimer, upMode, restartTimer]
          · by_cases hz : s.TA0R < T0min
            · simp [c0, c1, c10, hone, hz, exec, disableEdge, clearFlag, enableEdge,
                toggleScope, resetStmts, reset]
            · simp [c0, c1, c10, hone, hz, exec, disableEdge, clearFlag, enableEdge,
                toggleScope, incBitCounter, clearTimer, upMode, restartTimer]
  · rw [if_neg hf, if_neg hf]
    rfl

theorem exec_Timer_A_stmts (s : State) : exec Timer_A_stmts s = Timer_A s := rfl

/-- In a handler of the shape `disableEdge; mid; clearFlag; enableEdge` whose middle
statements leave `P1IE` alone, the pin interrupt is masked after every statement but
the last. -/
theorem masked_between (mid : List Stmt) (hmid : ∀ p ∈ mid, ∀ t : State, (p t).P1IE = t.P1IE)
    (s : State) (k : Nat) (h1 : 1 ≤ k)
    (hk : k < (disableEdge :: (mid ++ [clearFlag, enableEdge])).length) :
    EdgeMasked (exec ((disableEdge :: (mid ++ [clearFlag, enableEdge])).take k) s) := by
  obtain ⟨j, rfl⟩ : ∃ j, k = j + 1 := ⟨k - 1, by omega⟩
  simp only [List.length_cons, List.length_append, List.length_singleton,
    List.length_nil] at hk
  have hsplit : mid ++ [clearFlag, enableEdge] = (mid ++ [clearFlag]) ++ [enableEdge] := by
    simp
  rw [List.take_succ_cons, exec_cons, hsplit,
    List.take_append_of_le_length (by simp; omega)]
  unfold EdgeMasked
  rw [exec_keeps_P1IE]
  · exact bic8_pin _
  · intro p hp t
    have hp' := List.mem_of_mem_take hp
    rw [List.mem_append, List.mem_singleton] at hp'
    rcases hp' with hp' | rfl
    · exact hmid p hp' t
    · rfl

end IR_Receiver

open IR_Receiver

/-- C15: every run of `Port_1` with the detector flag pending, whatever path it takes,
and every run of `Timer_A`, is the statement sequence `P1IE &= ~pin; ...;
P1IFG &= ~pin; P1IE |= pin;`: the first statement clears the pin's interrupt enable
and touches no decoder state, no statement in between writes `P1IE`, so the pin
interrupt is masked after every statement but the last, the flag is cleared second to
last and the enable bit is set again by the last statement; on exit the enable bit is
set and the flag is clear. -/
theorem C15_edge_masking (s : State) :
    (s.P1IFG &&& IR_DETECTOR_PIN ≠ 0 →
      exec (Port_1_stmts s) s = Port_1 s ∧
      (∃ mid, Port_1_stmts s = disableEdge :: (mid ++ [clearFlag, enableEdge]) ∧
        ∀ p ∈ mid, ∀ t : State, (p t).P1IE = t.P1IE) ∧
      (∀ k, 1 ≤ k → k < (Port_1_stmts s).length →
        EdgeMasked (exec ((Port_1_stmts s).take k) s)) ∧
      ¬ EdgeMasked (Port_1 s) ∧ (Port_1 s).P1IFG &&& IR_DETECTOR_PIN = 0) ∧
    (exec Timer_A_stmts s = Timer_A s ∧
      (∃ mid, Timer_A_stmts = disableEdge :: (mid ++ [clearFlag, enableEdge]) ∧
        ∀ p ∈ mid, ∀ t : State, (p t).P1IE = t.P1IE) ∧
      (∀ k, 1 ≤ k → k < Timer_A_stmts.length →
        EdgeMasked (exec (Timer_A_stmts.take k) s)) ∧
      ¬ EdgeMasked (Timer_A s) ∧ (Timer_A s).P1IFG &&& IR_DETECTOR_PIN = 0) ∧
    (∀ t : State, EdgeMasked (disableEdge t) ∧ (disableEdge t).rxData = t.rxData ∧
      (disableEdge t).bitCounter = t.bitCounter ∧
      (disableEdge t).validBytes = t.validBytes ∧
      (disableEdge t).pulseTime = t.pulseTime ∧ (disableEdge t).shown = t.shown) := by
  refine ⟨fun hf => ?_, ?_, fun t => ⟨bic8_pin _, rfl, rfl, rfl, rfl, rfl⟩⟩
  · have hst : Port_1_stmts s = disableEdge :: (Port_1_body s ++ [clearFlag, enableEdge]) := by
      unfold Port_1_stmts
      rw [if_pos hf]
    have hie : (Port_1 s).P1IE = bis8 (Port_1 s).P1IE IR_DETECTOR_PIN ∧
        (Port_1 s).P1IFG = bic8 (Port_1 s).P1IFG IR_DETECTOR_PIN := by
      rw [← exec_Port_1_stmts, hst, exec_cons, exec_append, exec_cons, exec_cons, exec_nil]
      simp only [enableEdge, clearFlag, bis8, bic8]
      constructor
      · apply Nat.eq_of_testBit_eq
        intro i
        simp only [testBit_mod256, Nat.testBit_lor]
        cases decide (i < 8) <;> simp
      · apply Nat.eq_of_testBit_eq
        intro i
        simp only [testBit_mod256, Nat.testBit_land]
        cases decide (i < 8) <;> simp
    refine ⟨exec_Port_1_stmts s, ⟨Port_1_body s, hst, Port_1_body_keeps_P1IE s⟩, ?_, ?_, ?_⟩
    · intro k h1 hk
      rw [hst] at hk ⊢
      exact masked_between _ (Port_1_body_keeps_P1IE s) s k h1 hk
    · unfold EdgeMasked
      rw [hie.1]
      exact flag_pending _
    · rw [hie.2]
      exact bic8_pin _
  · refine ⟨exec_Timer_A_stmts s, ⟨resetStmts, rfl, resetStmts_keep_P1IE⟩, ?_, ?_, ?_⟩
    · intro k h1 hk
      exact masked_between _ resetStmts_keep_P1IE s k h1 hk
    · exact flag_pending _
    · exact bic8_pin _

/-- Witness for C15: the first edge after power-on; the pin interrupt is masked after
three of its nine statements. -/
theorem C15_edge_masking_witness :
    (bis8 powerOn.P1IFG IR_DETECTOR_PIN) &&& IR_DETECTOR_PIN ≠ 0 ∧
    EdgeMasked (exec ((Port_1_stmts { powerOn with
      P1IFG := bis8 powerOn.P1IFG IR_DETECTOR_PIN }).take 3)
      { powerOn with P1IFG := bis8 powerOn.P1IFG IR_DETECTOR_PIN }) :=
  ⟨by decide,
   ((C15_edge_masking { powerOn with P1IFG := bis8 powerOn.P1IFG IR_DETECTOR_PIN }).1
      (by decide)).2.2.1 3 (by decide) (by decide)⟩

end Infrared

/-! # The counter program's loop, and the lines `showByte` leaves alone -/

namespace Infrared

namespace Binary_Output

/-! ## Binary counter: the main loop -/

theorem counter_showByteBody_ports (i x : Nat) (s : State) :
    ∃ p1 p2, showByteBody i x s = { s with P1OUT := p1, P2OUT := p2 } := by
  unfold showByteBody
  split_ifs
  · exact ⟨_, s.P2OUT, rfl⟩
  · exact ⟨_, s.P2OUT, rfl⟩
  · exact ⟨s.P1OUT, _, rfl⟩
  · exact ⟨s.P1OUT, _, rfl⟩

theorem counter_showByteLoop_ports (fuel : Nat) : ∀ (i x : Nat) (s : State),
    ∃ p1 p2, showByteLoop fuel i x s = { s with P1OUT := p1, P2OUT := p2 } := by
  induction fuel with
  | zero => intro i x s; exact ⟨s.P1OUT, s.P2OUT, rfl⟩
  | succ n ih =>
    intro i x s
    unfold showByteLoop
    split_ifs
    · obtain ⟨q1, q2, hq⟩ := counter_showByteBody_ports i x s
      obtain ⟨p1, p2, hp⟩ := ih (i + 1) ((x >>> 1) % 256) (showByteBody i x s)
      exact ⟨p1, p2, by rw [hp, hq]⟩
    · exact ⟨s.P1OUT, s.P2OUT, rfl⟩

theorem counter_showByte_shown (x : Nat) (s : State) :
    (showByte x s).shown = s.shown ++ [x % 256] := by
  obtain ⟨p1, p2, hp⟩ :=
    counter_showByteLoop_ports 8 0 (x % 256) { s with shown := s.shown ++ [x % 256] }
  rw [showByte, hp]

theorem waitLoop_shown (fuel : Nat) : ∀ (endMillis : Nat) (s : State),
    (waitLoop fuel endMillis s).shown = s.shown := by
  induction fuel with
  | zero => intro _ s; rfl
  | succ n ih =>
    intro endMillis s
    unfold waitLoop
    split_ifs
    · rw [ih]; rfl
    · rfl

theorem delay_shown (s : State) : (delay s).shown = s.shown :=
  waitLoop_shown 51 _ s

theorem waitLoop_reaches (fuel : Nat) : ∀ (d endMillis : Nat) (s : State),
    s.millis + d = endMillis → endMillis < 4294967296 → d < fuel →
    (waitLoop fuel endMillis s).millis = endMillis := by
  induction fuel with
  | zero => intro d _ _ _ _ hd; omega
  | succ n ih =>
    intro d endMillis s hs he hd
    unfold waitLoop
    by_cases hlt : s.millis < endMillis
    · rw [if_pos hlt]
      have hm : (Timer0_ISR s).millis = s.millis + 1 := by
        show (s.millis + 1) % 4294967296 = s.millis + 1
        omega
      exact ih (d - 1) endMillis (Timer0_ISR s) (by rw [hm]; omega) he (by omega)
    · rw [if_neg hlt]
      omega

/-- The busy wait is over within the 51 passes of `delay`. -/
theorem delay_done (s : State) : ¬ (delay s).millis < (s.millis + 50) % 4294967296 := by
  by_cases hlt : s.millis < (s.millis + 50) % 4294967296
  · have he : (s.millis + 50) % 4294967296 = s.millis + 50 := by omega
    have := waitLoop_reaches 51 50 ((s.millis + 50) % 4294967296) s (by omega)
      (Nat.mod_lt _ (by norm_num)) (by omega)
    show ¬ (waitLoop 51 ((s.millis + 50) % 4294967296) s).millis < _
    omega
  · have : delay s = s := by
      show waitLoop 51 ((s.millis + 50) % 4294967296) s = s
      unfold waitLoop
      rw [if_neg hlt]
    rw [this]
    exact hlt

theorem innerLoop_runs (n : Nat) : ∀ (i : Nat) (s : State), i < 256 →
    ∃ s', innerLoop n i s = some ((i + n) % 256, s') ∧
      s'.shown = s.shown ++ (List.range n).map (fun k => (i + k) % 256) := by
  induction n with
  | zero =>
    intro i s hi
    exact ⟨s, by simp [innerLoop, Nat.mod_eq_of_lt hi], by simp⟩
  | succ n ih =>
    intro i s hi
    obtain ⟨s', h1, h2⟩ := ih ((i + 1) % 256) (delay (showByte i s))
      (Nat.mod_lt _ (by norm_num))
    refine ⟨s', ?_, ?_⟩
    · rw [innerLoop, if_pos hi, h1]
      congr 2
      omega
    · rw [h2, delay_shown, counter_showByte_shown, Nat.mod_eq_of_lt hi,
        List.range_succ_eq_map, List.map_cons, List.map_map, List.append_assoc]
      congr 1
      rw [List.singleton_append]
      refine congrArg₂ List.cons ?_ (List.map_congr_left ?_)
      · show i = (i + 0) % 256
        omega
      · intro k _
        show ((i + 1) % 256 + k) % 256 = (i + (k + 1)) % 256
        omega

end Binary_Output

/-- C16: the counter program's loop `for (i = 0; i < 256; i++)` over the unsigned
8-bit `i` never exits: for every number `n` of passes it is still running, with
`i = n mod 256`, and the `showByte` calls made so far received 0 mod 256, 1 mod 256,
..., (n-1) mod 256 in this order, so the `k`-th call receives `k mod 256`; after the
pass with `i = 255` the counter is 0 again; every software delay comes to an end. -/
theorem C16_counter_displays_successive_bytes (s : Binary_Output.State) (n : Nat) :
    (∃ s', Binary_Output.innerLoop n 0 s = some (n % 256, s') ∧
      s'.shown = s.shown ++ (List.range n).map (fun k => k % 256) ∧
      ∀ k, k < n → s'.shown.getD (s.shown.length + k) 0 = k % 256) ∧
    Binary_Output.innerLoop n 0 s ≠ none ∧
    (∃ t, Binary_Output.innerLoop 1 255 s = some (0, t)) ∧
    ¬ (Binary_Output.delay s).millis < (s.millis + 50) % 4294967296 := by
  obtain ⟨s', h1, h2⟩ := Binary_Output.innerLoop_runs n 0 s (by omega)
  rw [Nat.zero_add] at h1
  have h2' : s'.shown = s.shown ++ (List.range n).map (fun k => k % 256) := by
    rw [h2]
    congr 1
    apply List.map_congr_left
    intro k _
    show (0 + k) % 256 = k % 256
    rw [Nat.zero_add]
  refine ⟨⟨s', h1, h2', ?_⟩, by rw [h1]; simp, ?_, Binary_Output.delay_done s⟩
  · intro k hk
    rw [h2', List.getD_eq_getElem?_getD, List.getElem?_append_right (by omega)]
    simp [hk]
  · obtain ⟨t, ht, _⟩ := Binary_Output.innerLoop_runs 1 255 s (by omega)
    exact ⟨t, ht⟩

namespace IR_Receiver

/-! ## LED display: lines that are not LED lines -/

theorem showByteBody_others (x : Nat) (s : State) : ∀ i, i < 8 →
    otherLines (showByteBody i x s) = otherLines s := by
  intro i hi
  by_cases hx : x % 2 = 1
  · interval_cases i <;>
      simp +decide [showByteBody, hx, otherLines, LEDpinMap, bis8, bic8, bnot16,
        BIT0, BIT1, BIT2, BIT3, BIT4, BIT5, testBit_mod256, Nat.testBit_lor]
  · interval_cases i <;>
      simp +decide [showByteBody, hx, otherLines, LEDpinMap, bis8, bic8, bnot16,
        BIT0, BIT1, BIT2, BIT3, BIT4, BIT5, testBit_mod256, Nat.testBit_land]

theorem showByteLoop_others (fuel : Nat) : ∀ (i x : Nat) (s : State),
    otherLines (showByteLoop fuel i x s) = otherLines s := by
  induction fuel with
  | zero => intro i x s; rfl
  | succ n ih =>
    intro i x s
    unfold showByteLoop
    split_ifs with hi
    · rw [ih, showByteBody_others x s i hi]
    · rfl

theorem showByte_others (x : Nat) (s : State) :
    otherLines (showByte x s) = otherLines s := by
  rw [showByte, showByteLoop_others]
  rfl

end IR_Receiver

namespace Binary_Output

theorem counter_showByteBody_others (x : Nat) (s : State) : ∀ i, i < 8 →
    otherLines (showByteBody i x s) = otherLines s := by
  intro i hi
  by_cases hx : x % 2 = 1
  · interval_cases i <;>
      simp +decide [showByteBody, hx, otherLines, LEDpinMap, bis8, bic8, bnot16,
        BIT0, BIT1, BIT2, BIT3, BIT4, BIT5, testBit_mod256, Nat.testBit_lor]
  · interval_cases i <;>
      simp +decide [showByteBody, hx, otherLines, LEDpinMap, bis8, bic8, bnot16,
        BIT0, BIT1, BIT2, BIT3, BIT4, BIT5, testBit_mod256, Nat.testBit_land]

theorem counter_showByteLoop_others (fuel : Nat) : ∀ (i x : Nat) (s : State),
    otherLines (showByteLoop fuel i x s) = otherLines s := by
  induction fuel with
  | zero => intro i x s; rfl
  | succ n ih =>
    intro i x s
    unfold showByteLoop
    split_ifs with hi
    · rw [ih, counter_showByteBody_others x s i hi]
    · rfl

theorem counter_showByte_others (x : Nat) (s : State) :
    otherLines (showByte x s) = otherLines s := by
  rw [showByte, counter_showByteLoop_others]
  rfl

end Binary_Output

/-- C19: for every byte `x` and every prior `P1OUT` and `P2OUT`, the IR program's
`showByte` leaves every bit of `P1OUT` other than bits 4 and 5 (among them the
oscilloscope pin, bit 6, and bit 7) and every bit of `P2OUT` other than bits 0..5
unchanged; the counter program's `showByte` leaves every bit of `P1OUT` other than
bits 0..5 and every bit of `P2OUT` other than bits 0 and 1 unchanged.  Bits are those
of the 8-bit port registers, `j < 8`. -/
theorem C19_showByte_only_LED_lines (x j : Nat) (hj : j < 8) :
    (∀ s : IR_Receiver.State,
      IR_Receiver.otherLines (IR_Receiver.showByte x s) = IR_Receiver.otherLines s ∧
      (j ≠ 4 → j ≠ 5 →
        (IR_Receiver.showByte x s).P1OUT.testBit j = s.P1OUT.testBit j) ∧
      (5 < j → (IR_Receiver.showByte x s).P2OUT.testBit j = s.P2OUT.testBit j)) ∧
    (∀ s : Binary_Output.State,
      Binary_Output.otherLines (Binary_Output.showByte x s) = Binary_Output.otherLines s ∧
      (5 < j → (Binary_Output.showByte x s).P1OUT.testBit j = s.P1OUT.testBit j) ∧
      (1 < j → (Binary_Output.showByte x s).P2OUT.testBit j = s.P2OUT.testBit j)) := by
  constructor
  · intro s
    have h := IR_Receiver.showByte_others x s
    refine ⟨h, ?_, ?_⟩
    · simp only [IR_Receiver.otherLines, List.cons.injEq, and_true] at h
      obtain ⟨a0, a1, a2, a3, a6, a7, _, _⟩ := h
      intro h4 h5
      interval_cases j
      · exact a0
      · exact a1
      · exact a2
      · exact a3
      · exact absurd rfl h4
      · exact absurd rfl h5
      · exact a6
      · exact a7
    · simp only [IR_Receiver.otherLines, List.cons.injEq, and_true] at h
      obtain ⟨_, _, _, _, _, _, b6, b7⟩ := h
      intro h5
      interval_cases j
      · exact b6
      · exact b7
  · intro s
    have h := Binary_Output.counter_showByte_others x s
    refine ⟨h, ?_, ?_⟩
    · simp only [Binary_Output.otherLines, List.cons.injEq, and_true] at h
      obtain ⟨a6, a7, _, _, _, _, _, _⟩ := h
      intro h5
      interval_cases j
      · exact a6
      · exact a7
    · simp only [Binary_Output.otherLines, List.cons.injEq, and_true] at h
      obtain ⟨_, _, b2, b3, b4, b5, b6, b7⟩ := h
      intro h1
      interval_cases j
      · exact b2
      · exact b3
      · exact b4
      · exact b5
      · exact b6
      · exact b7

/-- Witness for C19: showing 0xFF in the IR program leaves the oscilloscope pin
(bit 6 of `P1OUT`) low. -/
theorem C19_showByte_only_LED_lines_witness :
    (IR_Receiver.showByte 0xFF IR_Receiver.powerOn).P1OUT.testBit 6
      = IR_Receiver.powerOn.P1OUT.testBit 6 :=
  ((C19_showByte_only_LED_lines 0xFF 6 (by decide)).1 IR_Receiver.powerOn).2.1
    (by decide) (by decide)

end Infrared
